import Mathlib

/-!
# Formal model of the cocoa beam-search generator

This file is a shallow embedding of `src/negotiation/neural/generator.py`
(class `Generator`, methods `generate_batch` and `_from_beam`, helper
`get_bos`) together with the collaborators it drives.

* The per-item hypothesis `Beam` lives in `neural/beam.py`, which is not part
  of the sources given; every definition about it below is modelled from the
  specification (§3, §4.1) and carries a doc comment starting
  `Modelled from the spec:`.
* The decoder-state reindexing (`dec_states.beam_update`,
  `repeat_beam_size_times`) belongs to the external onmt `DecoderState`; the
  spec (§3, §4.3) describes it as a `reorder`/`repeat` pair on an opaque
  state, which we embed as explicit operations on a flat list of opaque state
  cells laid out exactly like the flattened `(beam, batch)` tensor view that
  the source manipulates (flat position `s * batch_size + j` holds beam slot
  `s` of batch item `j`).
* The neural model is opaque (spec §1, §6): we embed it as a record of
  oracle functions over abstract types.
* Scores: the tensors hold floating-point log-probabilities; we embed them as
  integers extended with a negative infinity (`LProb`) — the beam logic only
  relies on an ordered additive group of scores with a `-inf` mask, and
  integer scores keep every concrete run kernel-computable.

A note on lines 106-113 of `generator.py`: the text there is
`if hasattr(batch, 'prev_turns'): ... except: memory_bank = enc_memory_bank.data`
— an `if` block followed by a bare `except:` handler, which is not
syntactically valid Python; moreover `predict_with_context` is assigned only
inside the context branch, so under the evident `else:`/`try:` repairs the
no-context path reads an unbound name at line 125.  The literal behaviour is
captured by `memoryBankLiteral` below; the main embedding `generateBatchRun`
follows the documented intent (fall back to the encoder memory bank alone)
so that the rest of `generate_batch` stays well defined.
-/

set_option linter.unusedVariables false

/-- Vocabulary token ids (the source uses integer ids from `vocab.word_to_ind`). -/
abbrev Token := Nat

/-- A log-probability: a value or negative infinity.  `-inf` is used by the
beam to mask the EOS column before `min_length` and to retire finished slots
(spec §4.1). -/
inductive LProb where
  | neginf : LProb
  | val (q : ℤ) : LProb
deriving DecidableEq, Repr

namespace LProb

/-- Addition of log-probabilities; `-inf` absorbs. -/
def add : LProb → LProb → LProb
  | neginf, _ => neginf
  | val _, neginf => neginf
  | val a, val b => val (a + b)

/-- Order on log-probabilities, `-inf` at the bottom. -/
def le : LProb → LProb → Prop
  | neginf, _ => True
  | val _, neginf => False
  | val a, val b => a ≤ b

/-- Strict order on log-probabilities. -/
def lt : LProb → LProb → Prop
  | _, neginf => False
  | neginf, val _ => True
  | val a, val b => a < b

instance decLe : DecidableRel le := fun a b =>
  match a, b with
  | neginf, _ => isTrue trivial
  | val _, neginf => isFalse (fun h => h)
  | val a, val b => inferInstanceAs (Decidable (a ≤ b))

instance decLt : DecidableRel lt := fun a b =>
  match a, b with
  | neginf, neginf => isFalse (fun h => h)
  | val _, neginf => isFalse (fun h => h)
  | neginf, val _ => isTrue trivial
  | val a, val b => inferInstanceAs (Decidable (a < b))

end LProb

/-- Descending comparison key: score first (larger first), ties broken by the
smaller auxiliary index (the source breaks ties by flattened candidate index,
spec §4.1). -/
def keyLE (x y : LProb × Nat) : Prop :=
  LProb.lt y.1 x.1 ∨ (x.1 = y.1 ∧ x.2 ≤ y.2)

instance : DecidableRel keyLE := fun x y => by
  unfold keyLE; infer_instance

/-- The key order lifted to key-tagged payloads; this is the relation the
sorting passes below use. -/
def liftRel {α : Type} (x y : (LProb × Nat) × α) : Prop := keyLE x.1 y.1

instance {α : Type} : DecidableRel (liftRel (α := α)) := fun x y => by
  unfold liftRel; infer_instance

instance liftRelTotal {α : Type} : IsTotal ((LProb × Nat) × α) liftRel where
  total x y := by
    unfold liftRel keyLE
    have tri : ∀ a b : LProb, LProb.lt a b ∨ a = b ∨ LProb.lt b a := fun a b =>
      match a, b with
      | .neginf, .neginf => Or.inr (Or.inl rfl)
      | .neginf, .val _ => Or.inl trivial
      | .val _, .neginf => Or.inr (Or.inr trivial)
      | .val a, .val b => by
          rcases lt_trichotomy a b with h | h | h
          · exact Or.inl h
          · exact Or.inr (Or.inl (by rw [h]))
          · exact Or.inr (Or.inr h)
    rcases tri x.1.1 y.1.1 with h | h | h
    · exact Or.inr (Or.inl h)
    · rcases Nat.le_total x.1.2 y.1.2 with hn | hn
      · exact Or.inl (Or.inr ⟨h, hn⟩)
      · exact Or.inr (Or.inr ⟨h.symm, hn⟩)
    · exact Or.inl (Or.inl h)

instance liftRelTrans {α : Type} : IsTrans ((LProb × Nat) × α) liftRel where
  trans x y z hxy hyz := by
    unfold liftRel keyLE at *
    have nlt : ∀ a : LProb, ¬ LProb.lt a .neginf := fun a =>
      match a with
      | .neginf => fun h => h
      | .val _ => fun h => h
    have ltt : ∀ {a b c : LProb}, LProb.lt a b → LProb.lt b c → LProb.lt a c := by
      intro a b c h₁ h₂
      cases a <;> cases b <;> cases c
      all_goals first
        | exact absurd h₂ (nlt _)
        | exact absurd h₁ (nlt _)
        | trivial
        | exact lt_trans (α := ℤ) h₁ h₂
    rcases hxy with h₁ | ⟨e₁, n₁⟩
    · rcases hyz with h₂ | ⟨e₂, _⟩
      · exact Or.inl (ltt h₂ h₁)
      · exact Or.inl (e₂ ▸ h₁)
    · rcases hyz with h₂ | ⟨e₂, n₂⟩
      · exact Or.inl (e₁.symm ▸ h₂)
      · exact Or.inr ⟨e₁.trans e₂, Nat.le_trans n₁ n₂⟩

/-- Python's `enumerate`, starting at a given index. -/
def enumerate {α : Type} : Nat → List α → List (Nat × α)
  | _, [] => []
  | i, a :: l => (i, a) :: enumerate (i + 1) l

/-- A sort of a payload list by an `LProb` key, descending, ties broken by the
original position (matching the deterministic index-order tie-break the spec
demands). -/
def sortByScore {α : Type} (key : α → LProb) (l : List α) : List α :=
  (((enumerate 0 l).map (fun p => ((key p.2, p.1), p.2))).insertionSort liftRel).map
    (fun x => x.2)

/-- A finished-hypothesis record: normalized score, the step at which the
hypothesis emitted EOS, and the slot it occupied there (spec §3 `finished`). -/
structure FinEntry where
  score : LProb
  step : Nat
  slot : Nat
deriving DecidableEq, Repr

/-- Modelled from the spec: the per-item hypothesis `Beam` of
`neural/beam.py` (not in src/), fields per spec §3.  `tokens` is the ordered
sequence of steps (step 0 is the seeded start row), `backptrs.get i` are the
backpointers chosen at step `i+1`, `attns.get i` the attention rows recorded
at step `i+1`, `scores` the current cumulative score per live slot. -/
structure Beam where
  size : Nat
  nBest : Nat
  padId : Token
  bosId : Token
  eosId : Token
  minLength : Nat
  scorer : LProb → Nat → LProb
  tokens : List (List Token)
  backptrs : List (List Nat)
  attns : List (List (List ℚ))
  scores : List LProb
  finished : List FinEntry
  eosTop : Bool

instance : Inhabited Beam :=
  ⟨⟨0, 0, 0, 0, 0, 0, fun s _ => s, [], [], [], [], [], false⟩⟩

namespace Beam

/-- Modelled from the spec: a fresh beam seeded with the given
beginning-of-sequence token — "all slots start identical" (spec §4.1),
cumulative scores zero, nothing finished. -/
def init (size nBest : Nat) (pad bos eos : Token) (minLength : Nat)
    (scorer : LProb → Nat → LProb) : Beam :=
  ⟨size, nBest, pad, bos, eos, minLength, scorer,
    [List.replicate size bos], [], [], List.replicate size (.val 0), [], false⟩

/-- Modelled from the spec: `current_tokens()` — the most recently selected
token per live slot (spec §4.1), `get_current_state` in the source driver. -/
def get_current_state (bm : Beam) : List Token := bm.tokens.getLastD []

/-- Modelled from the spec: `current_backpointer_indices()` — the
previous-slot each live slot descends from (spec §4.1), `get_current_origin`
in the source driver. -/
def get_current_origin (bm : Beam) : List Nat := bm.backptrs.getLastD []

/-- Modelled from the spec: `done()` — true once the top-ranked slot emitted
EOS (early-stop, spec §4.1 bullet 6) or all `k` slots are finished. -/
def done (bm : Beam) : Bool :=
  bm.eosTop || (bm.tokens.getLastD []).all (fun t => t == bm.eosId)

/-- Modelled from the spec: `advance(step_scores, step_attention)` (spec
§4.1).  In order: mask EOS to `-inf` while under `min_length`; add each
slot's prior cumulative score (slots whose current token is EOS are retired
at `-inf`; on the very first step only row 0 is valid); flatten to `k ×
vocab` candidates; select the top-`k` by score with ties broken by lower
flattened index; decompose into (origin-slot, token); record the chosen
slots' attention rows; record EOS picks into `finished` with their
normalized score; set `eosTop` if the top slot picked EOS. -/
def maskMin (bm : Beam) (wordLk : List (List LProb)) : List (List LProb) :=
  if bm.tokens.length < bm.minLength
  then wordLk.map (fun row => row.set bm.eosId .neginf) else wordLk

def effScore (bm : Beam) (i : Nat) : LProb :=
  if (bm.tokens.getLastD []).getD i bm.padId == bm.eosId then .neginf
  else bm.scores.getD i (.val 0)

def beamRows (bm : Beam) (wordLk1 : List (List LProb)) : List (List LProb) :=
  if bm.tokens.length == 1 then [wordLk1.getD 0 []]
  else (List.range bm.size).map
    (fun i => (wordLk1.getD i []).map (fun p => (bm.effScore i).add p))

def flatCands (rows : List (List LProb)) (numWords : Nat) : List (LProb × Nat) :=
  (List.range rows.length).flatMap
    (fun s => (List.range numWords).map
      (fun t => ((rows.getD s []).getD t .neginf, s * numWords + t)))

def bestCands (bm : Beam) (wordLk : List (List LProb)) : List (LProb × Nat) :=
  (sortByScore Prod.fst
    (flatCands (bm.beamRows (bm.maskMin wordLk)) (wordLk.headD []).length)).take bm.size

def advance (bm : Beam) (wordLk : List (List LProb)) (attnOut : List (List ℚ)) : Beam :=
  let numWords := (wordLk.headD []).length
  let best := bm.bestCands wordLk
  let newScores := best.map Prod.fst
  let prevK := best.map (fun c => c.2 / numWords)
  let newToks := best.map (fun c => c.2 % numWords)
  let newAttn := prevK.map (fun o => attnOut.getD o [])
  let stepIdx := bm.tokens.length
  let newFin := ((enumerate 0 newToks).filter (fun p => p.2 == bm.eosId)).map
    (fun p => (⟨bm.scorer (newScores.getD p.1 .neginf) stepIdx, stepIdx, p.1⟩ : FinEntry))
  { bm with
    tokens := bm.tokens ++ [newToks]
    backptrs := bm.backptrs ++ [prevK]
    attns := bm.attns ++ [newAttn]
    scores := newScores
    finished := bm.finished ++ newFin
    eosTop := bm.eosTop || (newToks.headD bm.padId == bm.eosId) }

/-- Modelled from the spec: `sort_finished(minimum)` — when fewer than
`minimum` hypotheses have finished, pad by force-finishing the best live
unfinished slots at the final step; return all hypotheses sorted by
normalized score descending, as (scores, (step, slot) keys) (spec §4.1). -/
def sort_finished (bm : Beam) (minimum : Nat) : List LProb × List (Nat × Nat) :=
  let lastIdx := bm.tokens.length - 1
  let lastRow := bm.tokens.getLastD []
  let pad : List FinEntry :=
    if bm.finished.length < minimum then
      let live := ((enumerate 0 lastRow).filter (fun p => !(p.2 == bm.eosId))).map
        (fun p => (⟨bm.scorer (bm.scores.getD p.1 .neginf) lastIdx, lastIdx, p.1⟩ : FinEntry))
      (sortByScore FinEntry.score live).take (minimum - bm.finished.length)
    else []
  let sorted := sortByScore FinEntry.score (bm.finished ++ pad)
  (sorted.map FinEntry.score, sorted.map (fun e => (e.step, e.slot)))

/-- Modelled from the spec: the backpointer walk behind `get_hyp`: collect
(token, attention) pairs for steps `1 .. i` ending in `slot` at step `i`. -/
def getHypAux (bm : Beam) : Nat → Nat → List (Token × List ℚ)
  | 0, _ => []
  | i + 1, slot =>
      bm.getHypAux i ((bm.backptrs.getD i []).getD slot 0) ++
        [((bm.tokens.getD (i + 1) []).getD slot bm.padId,
          (bm.attns.getD i []).getD slot [])]

/-- Modelled from the spec: `get_hypothesis(step, slot)` — walk backpointers
from (step, slot) back to step 0, reconstructing the token and attention
sequences in forward order (spec §4.1). -/
def get_hyp (bm : Beam) (timestep slot : Nat) : List Token × List (List ℚ) :=
  let hs := bm.getHypAux timestep slot
  (hs.map Prod.fst, hs.map Prod.snd)

end Beam

/-- The batch consumed by `generate_batch` (read-only, spec §3): per-example
encoder inputs (opaque `ε`), sequence lengths, the ground-truth decoder
context words (`batch.context_data['decoder_tokens']`, word type `ω`),
time-major target token ids (`batch.targets`), and — per spec §9, modelled
as an explicit option — the optional dialogue-context features
(`batch.prev_turns`, opaque payload `π`). -/
structure Batch (ε π ω : Type) where
  size : Nat
  encoder_inputs : ε
  lengths : List Nat
  decoder_tokens : List (List ω)
  targets : List (List Token)
  prev_turns : Option π

/-- The memory bank handed to the decoder: either the encoder bank alone or,
when dialogue context is present, the `[enc_memory_bank, prev_memory_bank]`
pair built at line 110 of the source.  A bank is a list of per-batch-column
slices of an opaque cell type `ν` (the batch axis of the tensor). -/
inductive MemBank (ν : Type) where
  | single (m : List ν)
  | pair (enc : List ν) (prev : List ν)

/-- `rvar` (source line 90/126-128): repeat the batch axis `beam_size`
times, `a.repeat(1, beam_size, 1)` — the whole batch tiled `k` times. -/
def flatRepeat {α : Type} (k : Nat) (l : List α) : List α :=
  (List.replicate k l).flatten

/-- `rvar` applied to the memory bank (source lines 125-128). -/
def MemBank.rvar {ν : Type} (k : Nat) : MemBank ν → MemBank ν
  | single m => single (flatRepeat k m)
  | pair a b => pair (flatRepeat k a) (flatRepeat k b)

/-- The opaque neural model (spec §1, §6): `encoder`, the dialogue-context
embedder `cbow_embedder`, `init_decoder_state`, the (possibly multi-step)
`decoder` returning (last-step outputs, new states, last-step attention) per
batch column, and the vocabulary projection `model.generator.forward`
producing word log-probabilities.  Decoder states are a list of opaque cells
`σ`, one per batch column. -/
structure Model (σ ν τ δ ε π : Type) where
  encoder : ε → List Nat → τ × List ν
  cbow_embedder : π → τ × List ν
  init_decoder_state : ε → List ν → τ → List σ
  decoder : List (List Token) → MemBank ν → List σ → List Nat → List δ × List σ × List (List ℚ)
  generator : δ → List LProb

/-- The `Generator` object (source lines 30-52): the model, the vocabulary
map `word_to_ind` over words `ω` with the reserved `markers.PAD` /
`markers.EOS`, and the search configuration.  (`copy_attn` is disabled in
the source, `cuda`/`beam_trace` are irrelevant to the semantics.) -/
structure Generator (σ ν τ δ ε π ω : Type) where
  model : Model σ ν τ δ ε π
  vocab : ω → Token
  markerPAD : ω
  markerEOS : ω
  n_best : Nat
  max_length : Nat
  global_scorer : LProb → Nat → LProb
  beam_size : Nat
  min_length : Nat

/-- `get_bos` (source lines 72-76): the ground-truth context of item `b`, or
`markers.PAD` as the arbitrary start symbol when that turn is padded/empty;
the word is mapped through `vocab.word_to_ind`.  (For `gt_prefix = 0` the
source would index `tgt_sent[-1]`; we model the `gt_prefix ≥ 1` regime.) -/
def get_bos {σ ν τ δ ε π ω : Type} (G : Generator σ ν τ δ ε π ω)
    (B : Batch ε π ω) (gtPrefix : Nat) (b : Nat) : Token :=
  let tgt_sent := B.decoder_tokens.getD b []
  if tgt_sent.isEmpty then G.vocab G.markerPAD
  else G.vocab (tgt_sent.getD (gtPrefix - 1) G.markerPAD)

/-- Source lines 78-85: one `Beam` per batch item, seeded with that item's
beginning-of-sequence token from `get_bos`. -/
def initBeams {σ ν τ δ ε π ω : Type} (G : Generator σ ν τ δ ε π ω)
    (B : Batch ε π ω) (gtPrefix : Nat) : List Beam :=
  (List.range B.size).map (fun b =>
    Beam.init G.beam_size G.n_best (G.vocab G.markerPAD) (get_bos G B gtPrefix b)
      (G.vocab G.markerEOS) G.min_length G.global_scorer)

/-- The literal run-time semantics of source lines 106-113 and the read of
`predict_with_context` at line 125: with `prev_turns` present the memory
bank becomes the `[enc_memory_bank, prev_memory_bank]` pair; without it the
source text is broken — the block is an `if` followed by a bare `except:`
(a Python SyntaxError), and under the evident repairs `predict_with_context`
is never assigned on that path, so line 125 raises `NameError`. -/
def memoryBankLiteral {σ ν τ δ ε π : Type} (M : Model σ ν τ δ ε π)
    (prevTurns : Option π) (encMemoryBank : List ν) :
    Except String (MemBank ν × Bool) :=
  match prevTurns with
  | some pt => .ok (.pair encMemoryBank (M.cbow_embedder pt).2, true)
  | none => .error "NameError: name predict_with_context is not defined"

/-- Modelled from the spec: `dec_states.beam_update(j, positions, beam_size)`
of the external onmt `DecoderState` — the Reindexer of spec §4.3.  On the
flat `(beam × batch)` state (column `idx` holds slot `idx / n` of item
`idx % n`), the `k` cells of batch item `j` are permuted along the
hypothesis dimension by `positions`; every other column is untouched. -/
def beamUpdateAux {σ : Type} (orig : List σ) (j n : Nat) (positions : List Nat) :
    Nat → List σ → List σ
  | _, [] => []
  | idx, c :: rest =>
      (if idx % n = j then orig.getD ((positions.getD (idx / n) 0) * n + j) c else c) ::
        beamUpdateAux orig j n positions (idx + 1) rest

/-- Modelled from the spec: the Reindexer entry point (see `beamUpdateAux`). -/
def beamUpdate {σ : Type} (j n : Nat) (positions : List Nat) (st : List σ) : List σ :=
  beamUpdateAux st j n positions 0 st

/-- One step-log entry per beam: (batch index, whether `done()` was already
true when `advance` was invoked on it). -/
abbrev StepLog := List (Nat × Bool)

/-- `out[:, j]` after `unbottle` (source lines 160, 181): item `j`'s
`beam_size × vocab` slice of the flat slot-major word scores. -/
def outCol (k n j : Nat) (out : List (List LProb)) : List (List LProb) :=
  (List.range k).map (fun s => out.getD (s * n + j) [])

/-- `unbottle(attn["std"]).data[:, j, :memory_lengths[j]]` (source line 182):
item `j`'s attention rows, truncated to its memory length. -/
def attnCol (k n j : Nat) (ml : List Nat) (attn : List (List ℚ)) : List (List ℚ) :=
  (List.range k).map (fun s => (attn.getD (s * n + j) []).take (ml.getD j 0))

/-- Source lines 179-183: the per-beam advance loop of one decoding step.
For each `(j, b)` in `enumerate(beam)`: slice item `j`'s `beam_size × vocab`
scores (`out[:, j]`) and its attention rows truncated to
`memory_lengths[j]`, call `b.advance`, then reindex the shared decoder
state by the beam's fresh backpointers (`beam_update`). -/
def advanceAll {σ ν τ δ ε π ω : Type} (G : Generator σ ν τ δ ε π ω) (n : Nat)
    (memLengths : List Nat) (outFlat : List (List LProb))
    (attnFlat : List (List ℚ)) :
    List (Nat × Beam) → List σ → List Beam × List σ × StepLog
  | [], st => ([], st, [])
  | (j, b) :: rest, st =>
      let b' := b.advance (outCol G.beam_size n j outFlat)
        (attnCol G.beam_size n j memLengths attnFlat)
      let st' := beamUpdate j n b'.get_current_origin st
      let r := advanceAll G n memLengths outFlat attnFlat rest st'
      (b' :: r.1, r.2.1, (j, b.done) :: r.2.2)

/-- The flat slot-major model input of one decoding step (source lines
139-140): `stack([b.get_current_state() for b in beam]).t().view(1, -1)`. -/
def stepInp {σ ν τ δ ε π ω : Type} (G : Generator σ ν τ δ ε π ω)
    (beams : List Beam) : List Token :=
  (List.range G.beam_size).flatMap
    (fun s => beams.map (fun b => b.get_current_state.getD s 0))

/-- Source lines 137-183: one decoding step.  Gather the beams' current
tokens into the flat slot-major model input, run one decoder step, project
to word log-probabilities (`model.generator.forward`), then advance every
beam (`advanceAll`). -/
def stepOnce {σ ν τ δ ε π ω : Type} (G : Generator σ ν τ δ ε π ω)
    (mem : MemBank ν) (memLengths : List Nat) (beams : List Beam) (st : List σ) :
    List Beam × List σ × StepLog :=
  let n := beams.length
  let dec := G.model.decoder [stepInp G beams] mem st memLengths
  let outFlat := dec.1.map G.model.generator
  advanceAll G n memLengths outFlat dec.2.2 (enumerate 0 beams) dec.2.1

/-- Source lines 133-135 + the loop body: `for i in range(max_length): if
all(b.done() for b in beam): break; ...`.  Returns the final beams, final
decoder state, and the per-step logs of the executed steps. -/
def decodeLoop {σ ν τ δ ε π ω : Type} (G : Generator σ ν τ δ ε π ω)
    (mem : MemBank ν) (memLengths : List Nat) :
    Nat → List Beam → List σ → List Beam × List σ × List StepLog
  | 0, bs, st => (bs, st, [])
  | fuel + 1, bs, st =>
      if bs.all Beam.done then (bs, st, [])
      else
        let s1 := stepOnce G mem memLengths bs st
        let r := decodeLoop G mem memLengths fuel s1.1 s1.2.1
        (r.1, r.2.1, s1.2.2 :: r.2.2)

/-- All intermediate results of one `generate_batch` call. -/
structure RunState (σ ν : Type) where
  beams0 : List Beam
  memBank0 : MemBank ν
  entryStates : List σ
  memLengths : List Nat
  beamsF : List Beam
  statesF : List σ
  trace : List StepLog

/-- Source lines 66-183 of `generate_batch`: build the beams, run the
encoder and `init_decoder_state` (lines 98-104), build the memory bank from
the optional dialogue context (lines 106-113; the no-context fallback
follows the documented intent — see the header note and
`memoryBankLiteral`), force-feed the ground-truth prefix when
`gt_prefix > 1` (lines 116-120), repeat everything `beam_size` times
(lines 122-130), and run the decoding loop (lines 133-183). -/
def generateBatchRun {σ ν τ δ ε π ω : Type} (G : Generator σ ν τ δ ε π ω)
    (B : Batch ε π ω) (gtPrefix : Nat) : RunState σ ν :=
  let beams := initBeams G B gtPrefix
  let enc := G.model.encoder B.encoder_inputs B.lengths
  let dec_states0 := G.model.init_decoder_state B.encoder_inputs enc.2 enc.1
  let memory_bank : MemBank ν :=
    match B.prev_turns with
    | some pt => .pair enc.2 (G.model.cbow_embedder pt).2
    | none => .single enc.2
  let dec_states1 :=
    if 1 < gtPrefix then
      (G.model.decoder (B.targets.take (gtPrefix - 1)) memory_bank dec_states0 B.lengths).2.1
    else dec_states0
  let memory_bank1 := memory_bank.rvar G.beam_size
  let memory_lengths := flatRepeat G.beam_size B.lengths
  let entry := flatRepeat G.beam_size dec_states1
  let fin := decodeLoop G memory_bank1 memory_lengths G.max_length beams entry
  ⟨beams, memory_bank, entry, memory_lengths, fin.1, fin.2.1, fin.2.2⟩

/-- The dictionary `generate_batch` returns (lines 185-192):
`_from_beam`'s predictions / scores / attention, a `gold_score` of
`[0] * batch_size`, and the input batch itself. -/
structure GenResult (ε π ω : Type) where
  predictions : List (List (List Token))
  scores : List (List LProb)
  attention : List (List (List (List ℚ)))
  gold_score : List Int
  batch : Batch ε π ω

/-- `_from_beam` (source lines 194-209): per beam, `sort_finished(minimum =
n_best)`, then `get_hyp` on the first `n_best` (step, slot) keys; note the
full `scores` list is appended while predictions and attention are truncated
to `n_best`. -/
def from_beam {σ ν τ δ ε π ω : Type} (G : Generator σ ν τ δ ε π ω)
    (beams : List Beam) :
    List (List (List Token)) × List (List LProb) × List (List (List (List ℚ))) :=
  (beams.map (fun b =>
      ((b.sort_finished G.n_best).2.take G.n_best).map (fun tk => (b.get_hyp tk.1 tk.2).1)),
   beams.map (fun b => (b.sort_finished G.n_best).1),
   beams.map (fun b =>
      ((b.sort_finished G.n_best).2.take G.n_best).map (fun tk => (b.get_hyp tk.1 tk.2).2)))

/-- `generate_batch` (source lines 54-192). -/
def generate_batch {σ ν τ δ ε π ω : Type} (G : Generator σ ν τ δ ε π ω)
    (B : Batch ε π ω) (gtPrefix : Nat) : GenResult ε π ω :=
  let run := generateBatchRun G B gtPrefix
  let fb := from_beam G run.beamsF
  ⟨fb.1, fb.2.1, fb.2.2, List.replicate B.size 0, B⟩

/-- The advance-call trace of a `generate_batch` run: one log per executed
decoding step, one `(j, done-before)` entry per `advance` call. -/
def genTrace {σ ν τ δ ε π ω : Type} (G : Generator σ ν τ δ ε π ω)
    (B : Batch ε π ω) (gtPrefix : Nat) : List StepLog :=
  (generateBatchRun G B gtPrefix).trace

/-- A decoder whose batched outputs are exactly the per-column outputs of a
per-item cell function (`cell i` handles batch item `i`; column `c` of a
flat `(beam × batch)` call belongs to item `c % n`).  This is the formal
reading of "the model's batched per-step outputs agree slice-wise with its
single-item outputs": the outputs and new state of each column depend only
on that column's input token and state cell.  Multi-token calls (the forced
ground-truth prefix) thread the state through the column's token sequence;
outputs/attention are those of the single row in the one-step calls the
decoding loop issues. -/
def cellwiseDecoder {σ ν δ : Type} (n : Nat)
    (cell : Nat → Token → σ → δ × σ × List ℚ) :
    List (List Token) → MemBank ν → List σ → List Nat →
      List δ × List σ × List (List ℚ) :=
  fun rows _ st _ =>
    let firstRow := rows.getD 0 []
    let outs := (enumerate 0 st).map (fun p => cell (p.1 % n) (firstRow.getD p.1 0) p.2)
    let finals := (enumerate 0 st).map (fun p =>
      (rows.map (fun row => row.getD p.1 0)).foldl (fun s t => (cell (p.1 % n) t s).2.1) p.2)
    (outs.map (fun o => o.1), finals, outs.map (fun o => o.2.2))

/-! ### Concrete scenarios used by counterexamples and witnesses

Scenario A: two batch items, `beam_size = 2`, vocabulary
`{0 = PAD, 1 = EOS, 2, 3}`, `n_best = 1`, `max_length = 3`.  Item 0's beam
is done (EOS on top) after step 1, item 1 only after step 2, so the loop
keeps running — and keeps advancing item 0's finished beam — for a second
step.  Scenario B: a single item whose two slots both emit EOS at step 2,
so more than `n_best` hypotheses finish.  The model is a step-counting cell
(`σ = Nat`) with a lookup table of word log-probability rows. -/

def cRow : Nat → Token → Nat → ℤ × ℤ × ℤ × ℤ := fun i t s =>
  match i, t, s with
  | 0, _, 0 => (-9, -1, -2, -9)
  | 0, 2, 1 => (-9, -1, -9, -9)
  | 1, _, 0 => (-9, -9, -3, -4)
  | 1, 2, 1 => (-9, -1, -9, -9)
  | _, _, _ => (-9, -9, -9, -9)

def cGen (d : Nat × Token × Nat) : List LProb :=
  let r := cRow d.1 d.2.1 d.2.2
  [.val r.1, .val r.2.1, .val r.2.2.1, .val r.2.2.2]

def c4cell : Nat → Token → Nat → (Nat × Token × Nat) × Nat × List ℚ :=
  fun i t s => ((i, t, s), s + 1, [(1 : ℚ)])

def cM4 : Model Nat Unit Unit (Nat × Token × Nat) Unit Unit :=
  ⟨fun _ _ => ((), [(), ()]), fun _ => ((), []), fun _ _ _ => [0, 0],
    cellwiseDecoder 2 c4cell, cGen⟩

def cG4 : Generator Nat Unit Unit (Nat × Token × Nat) Unit Unit Nat :=
  ⟨cM4, id, 0, 1, 1, 3, fun s _ => s, 2, 0⟩

def cB4 : Batch Unit Unit Nat := ⟨2, (), [1, 1], [[], []], [], none⟩

def cM4s : Model Nat Unit Unit (Nat × Token × Nat) Unit Unit :=
  ⟨fun _ _ => ((), [()]), fun _ => ((), []), fun _ _ _ => [0],
    cellwiseDecoder 1 (fun _ => c4cell 0), cGen⟩

def cG4s : Generator Nat Unit Unit (Nat × Token × Nat) Unit Unit Nat :=
  ⟨cM4s, id, 0, 1, 1, 3, fun s _ => s, 2, 0⟩

def cB4s : Batch Unit Unit Nat := ⟨1, (), [1], [[]], [], none⟩

def cRow3 : Token → Nat → ℤ × ℤ × ℤ × ℤ := fun t s =>
  match t, s with
  | _, 0 => (-9, -9, -1, -2)
  | 2, 1 => (-9, -1, -9, -9)
  | 3, 1 => (-9, -1, -9, -9)
  | _, _ => (-9, -9, -9, -9)

def cGen3 (d : Nat × Token × Nat) : List LProb :=
  let r := cRow3 d.2.1 d.2.2
  [.val r.1, .val r.2.1, .val r.2.2.1, .val r.2.2.2]

def cM3 : Model Nat Unit Unit (Nat × Token × Nat) Unit Unit :=
  ⟨fun _ _ => ((), [()]), fun _ => ((), []), fun _ _ _ => [0],
    cellwiseDecoder 1 c4cell, cGen3⟩

def cG3 : Generator Nat Unit Unit (Nat × Token × Nat) Unit Unit Nat :=
  ⟨cM3, id, 0, 1, 1, 3, fun s _ => s, 2, 0⟩

def cB3 : Batch Unit Unit Nat := ⟨1, (), [1], [[]], [], none⟩

instance : Inhabited LProb := ⟨.neginf⟩

/-- The number of live (non-EOS) slots in the beam's current token row. -/
def unfinCount (bm : Beam) : Nat :=
  ((bm.tokens.getLastD []).filter (fun t => !(t == bm.eosId))).length

/-- The shape invariant behind `sort_finished`'s padding: the live slots
plus the recorded finished hypotheses always cover the beam width, so the
forced padding can always reach `minimum ≤ k` entries. -/
def BeamShape (k : Nat) (bm : Beam) : Prop :=
  k ≤ unfinCount bm + bm.finished.length

/-- The coupling between a batched run and the single-item run of batch item
`j`: the single run's beam is beam `j`, and its flat state columns are the
`j`-columns of the batched flat state. -/
def PairRel {σ : Type} [Inhabited σ] (n k j : Nat) (bs : List Beam) (st : List σ)
    (bs1 : List Beam) (st1 : List σ) : Prop :=
  bs.length = n ∧ st.length = k * n ∧ bs1 = [bs.getD j default] ∧ st1.length = k ∧
  ∀ s, s < k → st1.getD s default = st.getD (s * n + j) default

def cM4s1 : Model Nat Unit Unit (Nat × Token × Nat) Unit Unit :=
  ⟨fun _ _ => ((), [()]), fun _ => ((), []), fun _ _ _ => [0],
    cellwiseDecoder 1 (fun _ => c4cell 1), cGen⟩

def cG4s1 : Generator Nat Unit Unit (Nat × Token × Nat) Unit Unit Nat :=
  ⟨cM4s1, id, 0, 1, 1, 3, fun s _ => s, 2, 0⟩

def cB4s1 : Batch Unit Unit Nat := ⟨1, (), [1], [[]], [], none⟩

/-! ### Helper lemmas -/

namespace LProb

theorem notLtNeginf : ∀ a : LProb, ¬ lt a neginf
  | neginf => fun h => h
  | val _ => fun h => h

theorem ltTrans {a b c : LProb} (h₁ : lt a b) (h₂ : lt b c) : lt a c := by
  cases a <;> cases b <;> cases c
  all_goals first
    | exact absurd h₂ (notLtNeginf _)
    | exact absurd h₁ (notLtNeginf _)
    | trivial
    | exact lt_trans (α := ℤ) h₁ h₂

theorem trichotomy : ∀ a b : LProb, lt a b ∨ a = b ∨ lt b a
  | neginf, neginf => Or.inr (Or.inl rfl)
  | neginf, val _ => Or.inl trivial
  | val _, neginf => Or.inr (Or.inr trivial)
  | val a, val b => by
      rcases lt_trichotomy a b with h | h | h
      · exact Or.inl h
      · exact Or.inr (Or.inl (by rw [h]))
      · exact Or.inr (Or.inr h)

theorem leOfLt {a b : LProb} (h : lt a b) : le a b := by
  cases a <;> cases b
  · trivial
  · trivial
  · exact absurd h (notLtNeginf _)
  · exact le_of_lt (α := ℤ) h

theorem leRefl : ∀ a : LProb, le a a
  | neginf => trivial
  | val a => le_refl a

theorem leOfEq {a b : LProb} (h : a = b) : le a b := by
  rw [h]; exact leRefl b

end LProb

theorem enumerate_length {α : Type} : ∀ (i : Nat) (l : List α),
    (enumerate i l).length = l.length
  | _, [] => rfl
  | i, _ :: l => by simp [enumerate, enumerate_length (i + 1) l]

theorem enumerate_map_snd {α : Type} : ∀ (i : Nat) (l : List α),
    (enumerate i l).map Prod.snd = l
  | _, [] => rfl
  | i, a :: l => by simp [enumerate, enumerate_map_snd (i + 1) l]

theorem enumerate_mem {α : Type} : ∀ {i : Nat} {l : List α} {p : Nat × α},
    p ∈ enumerate i l → i ≤ p.1 ∧ p.1 < i + l.length
  | _, [], _, h => by cases h
  | i, a :: l, p, h => by
      rcases List.mem_cons.mp h with h | h
      · subst h; exact ⟨Nat.le_refl i, by simp⟩
      · have ih := enumerate_mem (i := i + 1) (l := l) (p := p) h
        refine ⟨Nat.le_of_succ_le ih.1, ?_⟩
        have h2 := ih.2
        simp only [List.length_cons]
        omega

theorem sortByScore_length {α : Type} (key : α → LProb) (l : List α) :
    (sortByScore key l).length = l.length := by
  unfold sortByScore
  rw [List.length_map, List.length_insertionSort, List.length_map, enumerate_length]

theorem sortByScore_perm {α : Type} (key : α → LProb) (l : List α) :
    (sortByScore key l).Perm l := by
  unfold sortByScore
  have h1 := (List.perm_insertionSort liftRel
    ((enumerate 0 l).map (fun p => ((key p.2, p.1), p.2)))).map (fun x => x.2)
  refine h1.trans ?_
  rw [List.map_map]
  have h2 : ((fun x => x.2) ∘ fun (p : Nat × α) =>
      (((key p.2, p.1), p.2) : (LProb × Nat) × α)) = Prod.snd := rfl
  rw [h2, enumerate_map_snd]

theorem sortByScore_sorted {α : Type} (key : α → LProb) (l : List α) :
    List.Pairwise (fun a b => LProb.le (key b) (key a)) (sortByScore key l) := by
  unfold sortByScore
  rw [List.pairwise_map]
  have hs := List.sorted_insertionSort liftRel
    ((enumerate 0 l).map (fun p => ((key p.2, p.1), p.2)))
  have hmem : ∀ x ∈ ((enumerate 0 l).map
      (fun p => (((key p.2, p.1), p.2) : (LProb × Nat) × α))).insertionSort liftRel,
      x.1.1 = key x.2 := by
    intro x hx
    rw [List.mem_insertionSort] at hx
    rcases List.mem_map.mp hx with ⟨p, _, hp⟩
    rw [← hp]
  refine List.Pairwise.imp_of_mem ?_ hs
  intro a b ha hb hab
  have hka := hmem a ha
  have hkb := hmem b hb
  rcases hab with h | ⟨h, _⟩
  · rw [← hka, ← hkb]; exact LProb.leOfLt h
  · rw [← hka, ← hkb]; exact LProb.leOfEq h.symm

theorem getD_map_range {α : Type} (f : Nat → α) {n b : Nat} (d : α) (h : b < n) :
    ((List.range n).map f).getD b d = f b := by
  simp [List.getD_eq_getElem?_getD, List.getElem?_map, List.getElem?_range, h]

theorem initBeams_getD {σ ν τ δ ε π ω : Type} (G : Generator σ ν τ δ ε π ω)
    (B : Batch ε π ω) (gtPrefix : Nat) {b : Nat} (hb : b < B.size) :
    (initBeams G B gtPrefix).getD b default =
      Beam.init G.beam_size G.n_best (G.vocab G.markerPAD) (get_bos G B gtPrefix b)
        (G.vocab G.markerEOS) G.min_length G.global_scorer := by
  unfold initBeams
  exact getD_map_range _ _ hb

theorem initBeams_length {σ ν τ δ ε π ω : Type} (G : Generator σ ν τ δ ε π ω)
    (B : Batch ε π ω) (gtPrefix : Nat) : (initBeams G B gtPrefix).length = B.size := by
  simp [initBeams]

theorem enumerate_map_fst {α : Type} : ∀ (i : Nat) (l : List α),
    (enumerate i l).map Prod.fst = List.range' i l.length
  | _, [] => rfl
  | i, a :: l => by
      simp [enumerate, List.range'_succ, enumerate_map_fst (i + 1) l]

theorem enumerate_mem_of_mem {α : Type} {x : α} : ∀ {i : Nat} {l : List α},
    x ∈ l → ∃ t, (t, x) ∈ enumerate i l
  | _, [], h => absurd h (List.not_mem_nil x)
  | i, a :: l, h => by
      rcases List.mem_cons.mp h with h | h
      · exact ⟨i, by rw [h]; exact List.mem_cons_self _ _⟩
      · rcases enumerate_mem_of_mem (i := i + 1) h with ⟨t, ht⟩
        exact ⟨t, List.mem_cons_of_mem _ ht⟩

theorem advanceAll_log {σ ν τ δ ε π ω : Type} (G : Generator σ ν τ δ ε π ω)
    (n : Nat) (ml : List Nat) (out : List (List LProb)) (attn : List (List ℚ)) :
    ∀ (L : List (Nat × Beam)) (st : List σ),
      (advanceAll G n ml out attn L st).2.2 = L.map (fun p => (p.1, p.2.done))
  | [], st => rfl
  | (j, b) :: rest, st => by
      simp only [advanceAll, List.map_cons]
      rw [advanceAll_log G n ml out attn rest _]

theorem advanceAll_beams_length {σ ν τ δ ε π ω : Type} (G : Generator σ ν τ δ ε π ω)
    (n : Nat) (ml : List Nat) (out : List (List LProb)) (attn : List (List ℚ)) :
    ∀ (L : List (Nat × Beam)) (st : List σ),
      (advanceAll G n ml out attn L st).1.length = L.length
  | [], st => rfl
  | (j, b) :: rest, st => by
      simp only [advanceAll, List.length_cons]
      rw [advanceAll_beams_length G n ml out attn rest _]

theorem stepOnce_log {σ ν τ δ ε π ω : Type} (G : Generator σ ν τ δ ε π ω)
    (mem : MemBank ν) (ml : List Nat) (bs : List Beam) (st : List σ) :
    (stepOnce G mem ml bs st).2.2 =
      (enumerate 0 bs).map (fun p => (p.1, p.2.done)) := by
  unfold stepOnce
  exact advanceAll_log G _ _ _ _ _ _

theorem stepOnce_beams_length {σ ν τ δ ε π ω : Type} (G : Generator σ ν τ δ ε π ω)
    (mem : MemBank ν) (ml : List Nat) (bs : List Beam) (st : List σ) :
    (stepOnce G mem ml bs st).1.length = bs.length := by
  unfold stepOnce
  rw [advanceAll_beams_length, enumerate_length]

theorem decodeLoop_trace_le {σ ν τ δ ε π ω : Type} (G : Generator σ ν τ δ ε π ω)
    (mem : MemBank ν) (ml : List Nat) (fuel : Nat) :
    ∀ (bs : List Beam) (st : List σ),
      (decodeLoop G mem ml fuel bs st).2.2.length ≤ fuel := by
  induction fuel with
  | zero => intro bs st; simp [decodeLoop]
  | succ n ih =>
      intro bs st
      unfold decodeLoop
      split
      · simp
      · simp only [List.length_cons]
        exact Nat.succ_le_succ (ih _ _)

theorem decodeLoop_stops {σ ν τ δ ε π ω : Type} (G : Generator σ ν τ δ ε π ω)
    (mem : MemBank ν) (ml : List Nat) (fuel : Nat) (bs : List Beam) (st : List σ)
    (h : bs.all Beam.done = true) :
    (decodeLoop G mem ml fuel bs st).2.2 = [] := by
  cases fuel with
  | zero => rfl
  | succ n => unfold decodeLoop; rw [if_pos h]

theorem decodeLoop_log_shape {σ ν τ δ ε π ω : Type} (G : Generator σ ν τ δ ε π ω)
    (mem : MemBank ν) (ml : List Nat) (fuel : Nat) :
    ∀ (bs : List Beam) (st : List σ),
      ∀ log ∈ (decodeLoop G mem ml fuel bs st).2.2,
        log.map Prod.fst = List.range bs.length ∧ ∃ e ∈ log, e.2 = false := by
  induction fuel with
  | zero => intro bs st log h; cases h
  | succ n ih =>
      intro bs st log h
      unfold decodeLoop at h
      split at h
      · cases h
      · rcases List.mem_cons.mp h with h | h
        · subst h
          constructor
          · rw [stepOnce_log, List.map_map]
            have he : ((fun p => Prod.fst p) ∘ fun (p : Nat × Beam) => (p.1, p.2.done)) =
                Prod.fst := rfl
            rw [he, enumerate_map_fst, List.range_eq_range']
          · rename_i hall
            have hfalse : ∃ b ∈ bs, Beam.done b = false := by
              rcases List.all_eq_false.mp (Bool.eq_false_iff.mpr hall) with ⟨b, hb, hnb⟩
              exact ⟨b, hb, Bool.eq_false_iff.mpr hnb⟩
            rcases hfalse with ⟨b, hb, hbf⟩
            rcases enumerate_mem_of_mem (i := 0) hb with ⟨t, ht⟩
            refine ⟨(t, b.done), ?_, hbf⟩
            rw [stepOnce_log]
            exact List.mem_map.mpr ⟨(t, b), ht, rfl⟩
        · have := ih _ _ log h
          rwa [stepOnce_beams_length] at this

/-! ### Claims -/

/-- C10: for every batch, the dictionary returned by `generate_batch`
contains a `"gold_score"` entry equal to a list of `batch_size` zeros
regardless of the model and batch contents, and a `"batch"` entry holding
the input batch object itself (source lines 185-192). -/
theorem c10_gold_score_and_batch {σ ν τ δ ε π ω : Type}
    (G : Generator σ ν τ δ ε π ω) (B : Batch ε π ω) (gtPrefix : Nat) :
    (generate_batch G B gtPrefix).gold_score = List.replicate B.size 0 ∧
    (generate_batch G B gtPrefix).batch = B := ⟨rfl, rfl⟩

/-- C2: contrary to the claim, a batch without the optional `prev_turns`
field does not fall back to decoding with the encoder memory bank alone:
the fallback code (source lines 106-113/125) is broken — the block is an
`if` followed by a bare `except:` (a SyntaxError), and `predict_with_context`
is unbound on the no-context path, so the literal semantics is an error,
while the context path does build the two-bank `[enc, prev]` pair. -/
theorem c2_missing_context_crashes :
    memoryBankLiteral cM4 none [()] =
      .error "NameError: name predict_with_context is not defined" ∧
    memoryBankLiteral cM4 (some ()) [(), ()] = .ok (.pair [(), ()] [], true) :=
  ⟨rfl, rfl⟩

/-- C8: if `gt_prefix > 1` the driver force-feeds the first `gt_prefix - 1`
ground-truth target tokens through the decoder to warm-start the decoder
state before free decoding; if `gt_prefix ≤ 1` the state entering the
stepping loop is exactly the state from `init_decoder_state` (tiled
`beam_size` times by `repeat_beam_size_times`), with no forced pass
(source lines 102-104, 116-120, 130). -/
theorem c8_forced_prefix_warm_start {σ ν τ δ ε π ω : Type}
    (G : Generator σ ν τ δ ε π ω) (B : Batch ε π ω) (gtPrefix : Nat) :
    (gtPrefix ≤ 1 →
      (generateBatchRun G B gtPrefix).entryStates =
        flatRepeat G.beam_size
          (G.model.init_decoder_state B.encoder_inputs
            (G.model.encoder B.encoder_inputs B.lengths).2
            (G.model.encoder B.encoder_inputs B.lengths).1)) ∧
    (1 < gtPrefix →
      (generateBatchRun G B gtPrefix).entryStates =
        flatRepeat G.beam_size
          ((G.model.decoder (B.targets.take (gtPrefix - 1))
              (generateBatchRun G B gtPrefix).memBank0
              (G.model.init_decoder_state B.encoder_inputs
                (G.model.encoder B.encoder_inputs B.lengths).2
                (G.model.encoder B.encoder_inputs B.lengths).1)
              B.lengths).2.1)) := by
  constructor
  · intro h
    have h2 : ¬ 1 < gtPrefix := by omega
    simp [generateBatchRun, h2]
  · intro h
    simp [generateBatchRun, h]

/-- C8 witness: with `gt_prefix = 1` on the concrete scenario, the loop
entry state is the tiled `init_decoder_state` output. -/
theorem c8_forced_prefix_warm_start_witness :
    (generateBatchRun cG4 cB4 1).entryStates =
      flatRepeat cG4.beam_size
        (cG4.model.init_decoder_state cB4.encoder_inputs
          (cG4.model.encoder cB4.encoder_inputs cB4.lengths).2
          (cG4.model.encoder cB4.encoder_inputs cB4.lengths).1) :=
  (c8_forced_prefix_warm_start cG4 cB4 1).1 (Nat.le_refl 1)

/-- C5: for a batch item whose ground-truth decoder context is empty, the
driver seeds that item's `Beam` with the PAD token id as its
beginning-of-sequence symbol; for a non-empty context (with `gt_prefix` in
the valid regime) it seeds the beam with the id of the context token at
position `gt_prefix - 1` (source lines 72-85). -/
theorem c5_bos_fallback {σ ν τ δ ε π ω : Type}
    (G : Generator σ ν τ δ ε π ω) (B : Batch ε π ω) (gtPrefix b : Nat)
    (hb : b < B.size) (hgt : 1 ≤ gtPrefix) :
    (B.decoder_tokens.getD b [] = [] →
      ((initBeams G B gtPrefix).getD b default).bosId = G.vocab G.markerPAD) ∧
    (∀ w ws, B.decoder_tokens.getD b [] = w :: ws →
      gtPrefix - 1 < (w :: ws).length →
      ((initBeams G B gtPrefix).getD b default).bosId =
        G.vocab ((w :: ws).getD (gtPrefix - 1) G.markerPAD)) ∧
    ((initBeams G B gtPrefix).getD b default).tokens =
      [List.replicate G.beam_size (get_bos G B gtPrefix b)] := by
  rw [initBeams_getD G B gtPrefix hb]
  refine ⟨?_, ?_, rfl⟩
  · intro he
    show get_bos G B gtPrefix b = G.vocab G.markerPAD
    unfold get_bos
    rw [he]
    simp
  · intro w ws he hlen
    show get_bos G B gtPrefix b =
      G.vocab ((w :: ws).getD (gtPrefix - 1) G.markerPAD)
    unfold get_bos
    rw [he]
    simp

/-- C5 witness: item 0 of the concrete scenario has an empty context and is
seeded with the PAD id. -/
theorem c5_bos_fallback_witness :
    0 < cB4.size ∧ (1 : Nat) ≤ 1 ∧
    ((initBeams cG4 cB4 1).getD 0 default).bosId = cG4.vocab cG4.markerPAD :=
  ⟨by decide, Nat.le_refl 1,
    (c5_bos_fallback cG4 cB4 1 0 (by decide) (Nat.le_refl 1)).1 (by decide)⟩

/-- C9: `generate_batch` is deterministic — two generators whose models
return identical log-probabilities, attention and states on every input,
and whose configurations agree, produce identical results on the same
batch; no sampling or randomness is involved in selection. -/
theorem c9_deterministic {σ ν τ δ ε π ω : Type}
    (G G' : Generator σ ν τ δ ε π ω) (B : Batch ε π ω) (gtPrefix : Nat)
    (henc : G.model.encoder = G'.model.encoder)
    (hcbow : G.model.cbow_embedder = G'.model.cbow_embedder)
    (hinit : G.model.init_decoder_state = G'.model.init_decoder_state)
    (hdec : G.model.decoder = G'.model.decoder)
    (hgen : G.model.generator = G'.model.generator)
    (hv : G.vocab = G'.vocab) (hpad : G.markerPAD = G'.markerPAD)
    (heos : G.markerEOS = G'.markerEOS) (hnb : G.n_best = G'.n_best)
    (hml : G.max_length = G'.max_length)
    (hsc : G.global_scorer = G'.global_scorer)
    (hbs : G.beam_size = G'.beam_size) (hmin : G.min_length = G'.min_length) :
    generate_batch G B gtPrefix = generate_batch G' B gtPrefix := by
  obtain ⟨⟨e1, c1, i1, d1, g1⟩, v1, p1, o1, nb1, ml1, sc1, bs1, mn1⟩ := G
  obtain ⟨⟨e2, c2, i2, d2, g2⟩, v2, p2, o2, nb2, ml2, sc2, bs2, mn2⟩ := G'
  simp only at henc hcbow hinit hdec hgen hv hpad heos hnb hml hsc hbs hmin
  subst henc hcbow hinit hdec hgen hv hpad heos hnb hml hsc hbs hmin
  rfl

/-- C9 witness: applied at the concrete scenario. -/
theorem c9_deterministic_witness :
    generate_batch cG4 cB4 1 = generate_batch cG4 cB4 1 :=
  c9_deterministic cG4 cG4 cB4 1 rfl rfl rfl rfl rfl rfl rfl rfl rfl rfl rfl rfl rfl

/-- C6: the stepping loop executes at most `max_length` decoding steps for
any batch and any model, and it performs no step on a state in which every
beam reports `done()` (source lines 133-135). -/
theorem c6_loop_bound {σ ν τ δ ε π ω : Type} (G : Generator σ ν τ δ ε π ω)
    (B : Batch ε π ω) (gtPrefix : Nat) :
    (genTrace G B gtPrefix).length ≤ G.max_length ∧
    ∀ (mem : MemBank ν) (ml : List Nat) (fuel : Nat) (bs : List Beam) (st : List σ),
      bs.all Beam.done = true → (decodeLoop G mem ml fuel bs st).2.2 = [] := by
  constructor
  · exact decodeLoop_trace_le G _ _ G.max_length _ _
  · intro mem ml fuel bs st h
    exact decodeLoop_stops G mem ml fuel bs st h

/-- C6 witness: applied at the concrete scenario; the all-done hypothesis is
discharged on the empty beam list. -/
theorem c6_loop_bound_witness :
    (genTrace cG4 cB4 1).length ≤ cG4.max_length ∧
    (decodeLoop cG4 (MemBank.single []) [] 3 [] ([] : List Nat)).2.2 = [] :=
  ⟨(c6_loop_bound cG4 cB4 1).1,
    (c6_loop_bound cG4 cB4 1).2 (MemBank.single []) [] 3 [] [] (by decide)⟩

/-- C1 (amended): the driver advances every beam, in index order, at each
executed step — including beams whose `done()` is already true — but it
executes a step only while at least one beam is not done; so `advance` is
never called once all beams are done, yet an individually finished beam is
still advanced while others are live. -/
theorem c1_advance_only_while_some_beam_live {σ ν τ δ ε π ω : Type}
    (G : Generator σ ν τ δ ε π ω) (B : Batch ε π ω) (gtPrefix : Nat) :
    ∀ log ∈ genTrace G B gtPrefix,
      log.map Prod.fst = List.range B.size ∧ ∃ e ∈ log, e.2 = false := by
  intro log h
  have := decodeLoop_log_shape G _ _ G.max_length (initBeams G B gtPrefix) _ log h
  rwa [initBeams_length] at this

/-- C1 witness: the first executed step of the concrete scenario advances
beams 0 and 1, neither of which is done yet. -/
theorem c1_advance_only_while_some_beam_live_witness :
    (([(0, false), (1, false)] : StepLog).map Prod.fst = List.range cB4.size ∧
      ∃ e ∈ ([(0, false), (1, false)] : StepLog), e.2 = false) :=
  c1_advance_only_while_some_beam_live cG4 cB4 1 [(0, false), (1, false)] (by decide)

/-- C1 counterexample: in the concrete scenario, item 0's beam is done
(EOS on top) after step 1, item 1's is not, so at step 2 the driver invokes
`advance` on beam 0 even though its `done()` was true before the step — the
step-2 log records the advance call `(0, true)`. -/
theorem c1_advance_on_done_beam_counterexample :
    (genTrace cG4 cB4 1).getD 1 [] = [(0, true), (1, false)] := by decide

/-- C3 counterexample: in scenario B both beam slots finish at step 2 while
`n_best = 1`, and `_from_beam` appends the full `sort_finished` scores list
(source line 207), so the returned scores for the item do not contain
exactly `n_best` entries. -/
theorem c3_scores_exceed_n_best_counterexample :
    ((generate_batch cG3 cB3 1).scores.getD 0 []).length ≠ cG3.n_best := by
  decide

/-- C4 counterexample: the slice-agreement proviso holds by construction
(the batched model is `cellwiseDecoder 2 c4cell` and the single-item model
is its item-0 restriction, with all configuration and batch fields sliced
accordingly), yet the scores `generate_batch` produces for batch item 0
differ from those of the single-item run: item 0's beam is done after step
1, but the batched loop keeps advancing it while item 1 is live, producing
an extra finished hypothesis. -/
theorem c4_batching_not_pure_counterexample :
    cG4.model.decoder = cellwiseDecoder 2 c4cell ∧
    cG4s.model.decoder = cellwiseDecoder 1 (fun _ => c4cell 0) ∧
    cB4s.lengths = [cB4.lengths.getD 0 0] ∧
    cB4s.decoder_tokens = [cB4.decoder_tokens.getD 0 []] ∧
    cB4s.targets = cB4.targets.map (fun row => [row.getD 0 0]) ∧
    cG4s.beam_size = cG4.beam_size ∧ cG4s.n_best = cG4.n_best ∧
    cG4s.max_length = cG4.max_length ∧ cG4s.min_length = cG4.min_length ∧
    (generate_batch cG4 cB4 1).scores.getD 0 [] ≠
      (generate_batch cG4s cB4s 1).scores.getD 0 [] := by
  refine ⟨rfl, rfl, rfl, rfl, rfl, rfl, rfl, rfl, rfl, ?_⟩
  decide

theorem getD_indep {α : Type} (l : List α) {i : Nat} (h : i < l.length) (d d' : α) :
    l.getD i d = l.getD i d' := by
  simp [List.getD_eq_getElem?_getD, List.getElem?_eq_getElem h]

theorem getD_map {α β : Type} (f : α → β) (d : α) :
    ∀ (l : List α) (i : Nat), (l.map f).getD i (f d) = f (l.getD i d)
  | [], _ => rfl
  | a :: l, 0 => rfl
  | a :: l, i + 1 => getD_map f d l i

theorem enumerate_getD {α : Type} (d : α) :
    ∀ (l : List α) (i j : Nat), j < l.length →
      (enumerate i l).getD j (0, d) = (i + j, l.getD j d)
  | [], i, j, h => absurd h (by simp)
  | a :: l, i, 0, h => by simp [enumerate]
  | a :: l, i, j + 1, h => by
      simp only [enumerate, List.getD_cons_succ]
      rw [enumerate_getD d l (i + 1) j (by simpa [Nat.succ_lt_succ_iff] using h)]
      have he : i + 1 + j = i + (j + 1) := by omega
      rw [he]

theorem enumerate_getD_mem {α : Type} (d : α) :
    ∀ (l : List α) (j : Nat), j < l.length → (j, l.getD j d) ∈ enumerate 0 l := by
  intro l j h
  have h2 : j < (enumerate 0 l).length := by rw [enumerate_length]; exact h
  have h3 : (enumerate 0 l).getD j (0, d) ∈ enumerate 0 l := by
    rw [List.getD_eq_getElem?_getD, List.getElem?_eq_getElem h2]
    simp [List.getElem_mem]
  rw [enumerate_getD d l 0 j h] at h3
  simpa using h3

theorem mod_helper {j n : Nat} (x : Nat) (hj : j < n) : (x * n + j) % n = j := by
  rw [Nat.mul_comm, Nat.mul_add_mod]
  exact Nat.mod_eq_of_lt hj

theorem beamUpdateAux_length {σ : Type} (orig : List σ) (j n : Nat) (pos : List Nat) :
    ∀ (base : Nat) (l : List σ), (beamUpdateAux orig j n pos base l).length = l.length
  | _, [] => rfl
  | base, c :: rest => by
      simp only [beamUpdateAux, List.length_cons]
      rw [beamUpdateAux_length orig j n pos (base + 1) rest]

theorem beamUpdate_length {σ : Type} (j n : Nat) (pos : List Nat) (st : List σ) :
    (beamUpdate j n pos st).length = st.length :=
  beamUpdateAux_length st j n pos 0 st

theorem beamUpdateAux_getD {σ : Type} (orig : List σ) (j n : Nat) (pos : List Nat) :
    ∀ (l : List σ) (base idx : Nat) (d : σ), idx < l.length →
      (beamUpdateAux orig j n pos base l).getD idx d =
        (if (base + idx) % n = j
         then orig.getD ((pos.getD ((base + idx) / n) 0) * n + j) (l.getD idx d)
         else l.getD idx d)
  | [], base, idx, d, h => absurd h (by simp)
  | c :: rest, base, 0, d, h => by
      simp only [beamUpdateAux, List.getD_cons_zero, Nat.add_zero]
  | c :: rest, base, idx + 1, d, h => by
      simp only [beamUpdateAux, List.getD_cons_succ]
      rw [beamUpdateAux_getD orig j n pos rest (base + 1) idx d
        (by simpa [Nat.succ_lt_succ_iff] using h)]
      have he : base + 1 + idx = base + (idx + 1) := by omega
      rw [he]

theorem beamUpdate_getD_ne {σ : Type} {j n : Nat} (pos : List Nat) (st : List σ)
    {idx : Nat} (d : σ) (h : idx < st.length) (hne : idx % n ≠ j) :
    (beamUpdate j n pos st).getD idx d = st.getD idx d := by
  unfold beamUpdate
  rw [beamUpdateAux_getD st j n pos st 0 idx d h]
  simp only [Nat.zero_add]
  rw [if_neg hne]

theorem beamUpdate_getD_eq {σ : Type} {j n : Nat} (pos : List Nat) (st : List σ)
    {idx : Nat} (d : σ) (h : idx < st.length) (heq : idx % n = j) :
    (beamUpdate j n pos st).getD idx d =
      st.getD ((pos.getD (idx / n) 0) * n + j) (st.getD idx d) := by
  unfold beamUpdate
  rw [beamUpdateAux_getD st j n pos st 0 idx d h]
  simp only [Nat.zero_add]
  rw [if_pos heq]

theorem advanceAll_state_length {σ ν τ δ ε π ω : Type} (G : Generator σ ν τ δ ε π ω)
    (n : Nat) (ml : List Nat) (out : List (List LProb)) (attn : List (List ℚ)) :
    ∀ (L : List (Nat × Beam)) (st : List σ),
      (advanceAll G n ml out attn L st).2.1.length = st.length
  | [], st => rfl
  | (j, b) :: rest, st => by
      simp only [advanceAll]
      rw [advanceAll_state_length G n ml out attn rest _, beamUpdate_length]

theorem advanceAll_frame {σ ν τ δ ε π ω : Type} (G : Generator σ ν τ δ ε π ω)
    (n : Nat) (ml : List Nat) (out : List (List LProb)) (attn : List (List ℚ)) :
    ∀ (L : List (Nat × Beam)) (st : List σ) (idx : Nat) (d : σ),
      idx < st.length → (∀ p ∈ L, idx % n ≠ p.1) →
      (advanceAll G n ml out attn L st).2.1.getD idx d = st.getD idx d
  | [], st, idx, d, h, hall => rfl
  | (j, b) :: rest, st, idx, d, h, hall => by
      simp only [advanceAll]
      have hne : idx % n ≠ j := hall (j, b) (List.mem_cons_self _ _)
      rw [advanceAll_frame G n ml out attn rest _ idx d
        (by rw [beamUpdate_length]; exact h)
        (fun p hp => hall p (List.mem_cons_of_mem _ hp))]
      exact beamUpdate_getD_ne _ st d h hne

theorem advanceAll_beams_map {σ ν τ δ ε π ω : Type} (G : Generator σ ν τ δ ε π ω)
    (n : Nat) (ml : List Nat) (out : List (List LProb)) (attn : List (List ℚ)) :
    ∀ (L : List (Nat × Beam)) (st : List σ),
      (advanceAll G n ml out attn L st).1 =
        L.map (fun p => p.2.advance (outCol G.beam_size n p.1 out)
          (attnCol G.beam_size n p.1 ml attn))
  | [], st => rfl
  | (j, b) :: rest, st => by
      simp only [advanceAll, List.map_cons]
      rw [advanceAll_beams_map G n ml out attn rest _]

theorem advanceAll_col {σ ν τ δ ε π ω : Type} (G : Generator σ ν τ δ ε π ω)
    (n : Nat) (ml : List Nat) (out : List (List LProb)) (attn : List (List ℚ)) :
    ∀ (L : List (Nat × Beam)) (st : List σ) (j : Nat) (b : Beam) (s : Nat) (d : σ),
      (j, b) ∈ L → j < n → (L.map Prod.fst).Nodup →
      s * n + j < st.length →
      (advanceAll G n ml out attn L st).2.1.getD (s * n + j) d =
        (beamUpdate j n
          (b.advance (outCol G.beam_size n j out)
            (attnCol G.beam_size n j ml attn)).get_current_origin st).getD
          (s * n + j) d
  | [], st, j, b, s, d, hmem, _, _, _ => absurd hmem (List.not_mem_nil _)
  | (j0, b0) :: rest, st, j, b, s, d, hmem, hj, hnd, hidx => by
      simp only [advanceAll]
      have hmod : (s * n + j) % n = j := mod_helper s hj
      have hndc : j0 ∉ rest.map Prod.fst ∧ (rest.map Prod.fst).Nodup := by
        have := hnd
        simp only [List.map_cons, List.nodup_cons] at this
        exact this
      rcases List.mem_cons.mp hmem with hhd | htl
      · injection hhd with h1 h2
        subst h1
        subst h2
        have hnotin : ∀ p ∈ rest, (s * n + j) % n ≠ p.1 := by
          intro p hp
          rw [hmod]
          intro hcontra
          refine hndc.1 ?_
          rw [hcontra]
          exact List.mem_map.mpr ⟨p, hp, rfl⟩
        rw [advanceAll_frame G n ml out attn rest _ _ d
          (by rw [beamUpdate_length]; exact hidx) hnotin]
      · have hne : j ≠ j0 := by
          intro h
          subst h
          exact hndc.1 (List.mem_map.mpr ⟨(j, b), htl, rfl⟩)
        have hlen' : s * n + j < (beamUpdate j0 n
            (b0.advance (outCol G.beam_size n j0 out)
              (attnCol G.beam_size n j0 ml attn)).get_current_origin st).length := by
          rw [beamUpdate_length]; exact hidx
        rw [advanceAll_col G n ml out attn rest _ j b s d htl hj hndc.2 hlen']
        have hmodne : (s * n + j) % n ≠ j0 := by rw [hmod]; exact hne
        rw [beamUpdate_getD_eq _ _ d hlen' hmod, beamUpdate_getD_eq _ st d hidx hmod]
        have hinner : (beamUpdate j0 n
            (b0.advance (outCol G.beam_size n j0 out)
              (attnCol G.beam_size n j0 ml attn)).get_current_origin st).getD
            (s * n + j) d = st.getD (s * n + j) d :=
          beamUpdate_getD_ne _ st d hidx hmodne
        rw [hinner]
        have htmod : ((b.advance (outCol G.beam_size n j out)
            (attnCol G.beam_size n j ml attn)).get_current_origin.getD
              ((s * n + j) / n) 0 * n + j) % n ≠ j0 := by
          rw [mod_helper _ hj]; exact hne
        by_cases hlt : (b.advance (outCol G.beam_size n j out)
            (attnCol G.beam_size n j ml attn)).get_current_origin.getD
              ((s * n + j) / n) 0 * n + j < st.length
        · exact beamUpdate_getD_ne _ st _ hlt htmod
        · have hge : st.length ≤ (b.advance (outCol G.beam_size n j out)
              (attnCol G.beam_size n j ml attn)).get_current_origin.getD
                ((s * n + j) / n) 0 * n + j := Nat.le_of_not_lt hlt
          rw [List.getD_eq_default _ _ (by rw [beamUpdate_length]; exact hge),
            List.getD_eq_default _ _ hge]

theorem mulAddDivHelper {j n : Nat} (x : Nat) (hj : j < n) : (x * n + j) / n = x := by
  rw [Nat.mul_comm, Nat.mul_add_div (by omega)]
  simp [Nat.div_eq_of_lt hj]

theorem stepOnce_beam_getD {σ ν τ δ ε π ω : Type} (G : Generator σ ν τ δ ε π ω)
    (mem : MemBank ν) (ml : List Nat) (beams : List Beam) (st : List σ)
    {j : Nat} (hj : j < beams.length) :
    (stepOnce G mem ml beams st).1.getD j default =
      (beams.getD j default).advance
        (outCol G.beam_size beams.length j
          ((G.model.decoder [stepInp G beams] mem st ml).1.map G.model.generator))
        (attnCol G.beam_size beams.length j ml
          (G.model.decoder [stepInp G beams] mem st ml).2.2) := by
  unfold stepOnce
  rw [advanceAll_beams_map]
  have hjl : j < (enumerate 0 beams).length := by rw [enumerate_length]; exact hj
  rw [getD_indep _ (by rw [List.length_map]; exact hjl) default
    ((fun p : Nat × Beam => p.2.advance
      (outCol G.beam_size beams.length p.1
        ((G.model.decoder [stepInp G beams] mem st ml).1.map G.model.generator))
      (attnCol G.beam_size beams.length p.1 ml
        (G.model.decoder [stepInp G beams] mem st ml).2.2)) (0, default))]
  rw [getD_map]
  rw [enumerate_getD default beams 0 j hj]
  simp

/-- C7: at a decoding step, after beam `j` advances, the decoder state
entries belonging to batch item `j` (the flat columns `s * n + j`) are
permuted along the hypothesis dimension according to that beam's fresh
backpointer indices (`get_current_origin`), relative to the state the
decoder call of this step produced; and the reindex of beam `j` leaves the
state slices of every other batch item unchanged (source lines 179-183). -/
theorem c7_state_reindex {σ ν τ δ ε π ω : Type} (G : Generator σ ν τ δ ε π ω)
    (mem : MemBank ν) (ml : List Nat) (beams : List Beam) (st : List σ)
    (j s : Nat) (d : σ) (hj : j < beams.length)
    (hidx : s * beams.length + j <
      (G.model.decoder [stepInp G beams] mem st ml).2.1.length) :
    ((stepOnce G mem ml beams st).2.1.getD (s * beams.length + j) d =
      (G.model.decoder [stepInp G beams] mem st ml).2.1.getD
        ((((stepOnce G mem ml beams st).1.getD j default).get_current_origin.getD s 0)
            * beams.length + j)
        ((G.model.decoder [stepInp G beams] mem st ml).2.1.getD
          (s * beams.length + j) d)) ∧
    (∀ (pos : List Nat) (st0 : List σ) (idx : Nat) (d0 : σ),
      idx < st0.length → idx % beams.length ≠ j →
      (beamUpdate j beams.length pos st0).getD idx d0 = st0.getD idx d0) := by
  constructor
  · rw [stepOnce_beam_getD G mem ml beams st hj]
    show (advanceAll G beams.length ml
        ((G.model.decoder [stepInp G beams] mem st ml).1.map G.model.generator)
        (G.model.decoder [stepInp G beams] mem st ml).2.2
        (enumerate 0 beams)
        (G.model.decoder [stepInp G beams] mem st ml).2.1).2.1.getD
        (s * beams.length + j) d = _
    rw [advanceAll_col G beams.length ml _ _ (enumerate 0 beams) _ j
      (beams.getD j default) s d (enumerate_getD_mem default beams j hj) hj
      (by rw [enumerate_map_fst]; exact List.nodup_range' _ _) hidx]
    rw [beamUpdate_getD_eq _ _ d hidx (mod_helper s hj)]
    rw [mulAddDivHelper s hj]
  · intro pos st0 idx d0 h hne
    exact beamUpdate_getD_ne pos st0 d0 h hne

/-- C7 witness: applied at the concrete scenario (step 1, item 0, slot 0). -/
theorem c7_state_reindex_witness :
    ((stepOnce cG4 (MemBank.single [(), (), (), ()]) [1, 1] (initBeams cG4 cB4 1)
        [0, 0, 0, 0]).2.1.getD (0 * (initBeams cG4 cB4 1).length + 0) 0 =
      (cG4.model.decoder [stepInp cG4 (initBeams cG4 cB4 1)]
          (MemBank.single [(), (), (), ()]) [0, 0, 0, 0] [1, 1]).2.1.getD
        ((((stepOnce cG4 (MemBank.single [(), (), (), ()]) [1, 1] (initBeams cG4 cB4 1)
              [0, 0, 0, 0]).1.getD 0 default).get_current_origin.getD 0 0)
            * (initBeams cG4 cB4 1).length + 0)
        ((cG4.model.decoder [stepInp cG4 (initBeams cG4 cB4 1)]
            (MemBank.single [(), (), (), ()]) [0, 0, 0, 0] [1, 1]).2.1.getD
          (0 * (initBeams cG4 cB4 1).length + 0) 0)) ∧
    (∀ (pos : List Nat) (st0 : List Nat) (idx : Nat) (d0 : Nat),
      idx < st0.length → idx % (initBeams cG4 cB4 1).length ≠ 0 →
      (beamUpdate 0 (initBeams cG4 cB4 1).length pos st0).getD idx d0 =
        st0.getD idx d0) :=
  c7_state_reindex cG4 (MemBank.single [(), (), (), ()]) [1, 1]
    (initBeams cG4 cB4 1) [0, 0, 0, 0] 0 0 0 (by decide) (by decide)

theorem flatRepeat_length {α : Type} : ∀ (k : Nat) (l : List α),
    (flatRepeat k l).length = k * l.length
  | 0, l => by simp [flatRepeat]
  | k + 1, l => by
      simp only [flatRepeat, List.replicate_succ, List.flatten_cons, List.length_append]
      have := flatRepeat_length k l
      simp only [flatRepeat] at this
      rw [this]
      ring

theorem flatCands_length (rows : List (List LProb)) (V : Nat) :
    (Beam.flatCands rows V).length = rows.length * V := by
  unfold Beam.flatCands
  generalize rows.length = m
  induction m with
  | zero => simp
  | succ m ih =>
      rw [List.range_succ, List.flatMap_append]
      simp only [List.length_append, ih]
      simp [Nat.succ_mul]

theorem beamRows_length (bm : Beam) (w1 : List (List LProb)) (hk : 1 ≤ bm.size) :
    1 ≤ (bm.beamRows w1).length ∧ (bm.beamRows w1).length ≤ bm.size := by
  unfold Beam.beamRows
  split
  · exact ⟨by simp, by simpa using hk⟩
  · constructor
    · simpa using hk
    · simp

theorem bestCands_length (bm : Beam) (w : List (List LProb))
    (hk : 1 ≤ bm.size) (hw : bm.size ≤ (w.headD []).length) :
    (bm.bestCands w).length = bm.size := by
  unfold Beam.bestCands
  rw [List.length_take, sortByScore_length, flatCands_length]
  have h1 := beamRows_length bm (bm.maskMin w) hk
  have h2 : bm.size ≤ (bm.beamRows (bm.maskMin w)).length * (w.headD []).length := by
    calc bm.size ≤ (w.headD []).length := hw
    _ = 1 * (w.headD []).length := by ring
    _ ≤ (bm.beamRows (bm.maskMin w)).length * (w.headD []).length :=
        Nat.mul_le_mul_right _ h1.1
  omega

theorem enumFilterLen (q : Token → Bool) : ∀ (l : List Token) (i : Nat),
    ((enumerate i l).filter (fun p => q p.2)).length = (l.filter q).length
  | [], _ => rfl
  | t :: l, i => by
      cases hq : q t
      · simp only [enumerate, List.filter_cons, hq, Bool.false_eq_true, if_false]
        exact enumFilterLen q l (i + 1)
      · simp only [enumerate, List.filter_cons, hq, if_true, List.length_cons]
        rw [enumFilterLen q l (i + 1)]

theorem filterSplitLen (q : Token → Bool) : ∀ l : List Token,
    (l.filter (fun t => !(q t))).length + (l.filter q).length = l.length
  | [] => rfl
  | t :: l => by
      have ih := filterSplitLen q l
      cases hq : q t
      · simp only [List.filter_cons, hq, Bool.not_false, if_true, Bool.false_eq_true,
          if_false, List.length_cons]
        omega
      · simp only [List.filter_cons, hq, Bool.not_true, if_true, Bool.false_eq_true,
          if_false, List.length_cons]
        omega

theorem advance_size (bm : Beam) (w : List (List LProb)) (a : List (List ℚ)) :
    (bm.advance w a).size = bm.size := rfl

theorem advance_shape (bm : Beam) (w : List (List LProb)) (a : List (List ℚ))
    (hk : 1 ≤ bm.size) (hw : bm.size ≤ (w.headD []).length) :
    BeamShape bm.size (bm.advance w a) := by
  unfold BeamShape unfinCount Beam.advance
  simp only [List.getLastD_concat, List.length_append, List.length_map]
  rw [enumFilterLen (fun t => t == bm.eosId)
    ((bm.bestCands w).map (fun c => c.2 % (w.headD []).length)) 0]
  have hsplit := filterSplitLen (fun t => t == bm.eosId)
    ((bm.bestCands w).map (fun c => c.2 % (w.headD []).length))
  have hlen : ((bm.bestCands w).map
      (fun c => c.2 % (w.headD []).length)).length = bm.size := by
    rw [List.length_map, bestCands_length bm w hk hw]
  omega

theorem init_shape (k nb : Nat) (pad bos eos : Token) (ml : Nat)
    (sc : LProb → Nat → LProb) (hbe : bos ≠ eos) :
    BeamShape k (Beam.init k nb pad bos eos ml sc) := by
  unfold BeamShape unfinCount Beam.init
  show k ≤ ((List.replicate k bos).filter (fun t => !(t == eos))).length +
    ([] : List FinEntry).length
  have hrep : ∀ m, ((List.replicate m bos).filter (fun t => !(t == eos))).length = m := by
    intro m
    induction m with
    | zero => rfl
    | succ m ih =>
        have hb : (!(bos == eos)) = true := by simp [hbe]
        simp only [List.replicate_succ, List.filter_cons, hb, if_true, List.length_cons]
        omega
  rw [hrep]
  omega

theorem outCol_headD (k n j : Nat) (out : List (List LProb)) (hk : 1 ≤ k) :
    (outCol k n j out).headD [] = out.getD j [] := by
  unfold outCol
  obtain ⟨m, rfl⟩ : ∃ m, k = m + 1 := ⟨k - 1, by omega⟩
  rw [List.range_succ_eq_map]
  simp

theorem getD_map_nil_bound {δ' : Type} (gen : δ' → List LProb) (k : Nat)
    (hgen : ∀ d, k ≤ (gen d).length) :
    ∀ (l : List δ') (j : Nat), j < l.length → k ≤ ((l.map gen).getD j []).length
  | [], j, h => absurd h (by simp)
  | d :: l, 0, _ => by simpa using hgen d
  | d :: l, j + 1, h => by
      simpa using getD_map_nil_bound gen k hgen l j
        (by simpa [Nat.succ_lt_succ_iff] using h)

theorem stepOnce_shape {σ ν τ δ ε π ω : Type} (G : Generator σ ν τ δ ε π ω)
    (mem : MemBank ν) (ml : List Nat) (bs : List Beam) (st : List σ)
    (hgen : ∀ d, G.beam_size ≤ (G.model.generator d).length)
    (hdecl : (G.model.decoder [stepInp G bs] mem st ml).1.length = st.length)
    (hk : 1 ≤ G.beam_size) (hlen : bs.length ≤ st.length)
    (hall : ∀ b ∈ bs, b.size = G.beam_size) :
    ∀ b' ∈ (stepOnce G mem ml bs st).1,
      b'.size = G.beam_size ∧ BeamShape G.beam_size b' := by
  intro b' hb'
  unfold stepOnce at hb'
  rw [advanceAll_beams_map] at hb'
  rcases List.mem_map.mp hb' with ⟨p, hp, rfl⟩
  have hp2 : p.2 ∈ bs := by
    rw [← enumerate_map_snd 0 bs]
    exact List.mem_map_of_mem Prod.snd hp
  have hsize := hall p.2 hp2
  refine ⟨by rw [advance_size]; exact hsize, ?_⟩
  have hj : p.1 < bs.length := by
    have := enumerate_mem hp
    simpa using this.2
  have hbound : G.beam_size ≤ ((outCol G.beam_size bs.length p.1
      ((G.model.decoder [stepInp G bs] mem st ml).1.map G.model.generator)).headD []).length := by
    rw [outCol_headD _ _ _ _ hk]
    exact getD_map_nil_bound G.model.generator G.beam_size hgen _ p.1
      (by rw [hdecl]; omega)
  have := advance_shape p.2
    (outCol G.beam_size bs.length p.1
      ((G.model.decoder [stepInp G bs] mem st ml).1.map G.model.generator))
    (attnCol G.beam_size bs.length p.1 ml
      (G.model.decoder [stepInp G bs] mem st ml).2.2)
    (by rw [hsize]; exact hk) (by rw [hsize]; exact hbound)
  rwa [hsize] at this

theorem stepOnce_state_length {σ ν τ δ ε π ω : Type} (G : Generator σ ν τ δ ε π ω)
    (mem : MemBank ν) (ml : List Nat) (bs : List Beam) (st : List σ) :
    (stepOnce G mem ml bs st).2.1.length =
      (G.model.decoder [stepInp G bs] mem st ml).2.1.length := by
  unfold stepOnce
  rw [advanceAll_state_length]

theorem decodeLoop_beams_length {σ ν τ δ ε π ω : Type} (G : Generator σ ν τ δ ε π ω)
    (mem : MemBank ν) (ml : List Nat) (fuel : Nat) :
    ∀ (bs : List Beam) (st : List σ),
      (decodeLoop G mem ml fuel bs st).1.length = bs.length := by
  induction fuel with
  | zero => intro bs st; rfl
  | succ n ih =>
      intro bs st
      unfold decodeLoop
      split
      · rfl
      · rw [ih, stepOnce_beams_length]

theorem decodeLoop_shape {σ ν τ δ ε π ω : Type} (G : Generator σ ν τ δ ε π ω)
    (mem : MemBank ν) (ml : List Nat)
    (hgen : ∀ d, G.beam_size ≤ (G.model.generator d).length)
    (hdecl : ∀ rows mb stt mll, (G.model.decoder rows mb stt mll).1.length = stt.length)
    (hdecs : ∀ rows mb stt mll, (G.model.decoder rows mb stt mll).2.1.length = stt.length)
    (hk : 1 ≤ G.beam_size) (fuel : Nat) :
    ∀ (bs : List Beam) (st : List σ),
      bs.length ≤ st.length →
      (∀ b ∈ bs, b.size = G.beam_size ∧ BeamShape G.beam_size b) →
      ∀ b ∈ (decodeLoop G mem ml fuel bs st).1,
        b.size = G.beam_size ∧ BeamShape G.beam_size b := by
  induction fuel with
  | zero => intro bs st _ hbs b hb; exact hbs b hb
  | succ n ih =>
      intro bs st hlen hbs b hb
      unfold decodeLoop at hb
      split at hb
      · exact hbs b hb
      · refine ih _ _ ?_ ?_ b hb
        · rw [stepOnce_beams_length, stepOnce_state_length, hdecs]
          exact hlen
        · exact stepOnce_shape G mem ml bs st hgen (hdecl _ _ _ _) hk hlen
            (fun b' hb' => (hbs b' hb').1)

theorem getD_mem_of_lt {α : Type} (l : List α) {j : Nat} (d : α) (h : j < l.length) :
    l.getD j d ∈ l := by
  rw [List.getD_eq_getElem?_getD, List.getElem?_eq_getElem h]
  simp [List.getElem_mem]

theorem map_getD_of_lt {α β : Type} (f : α → β) (l : List α) (d' : β) {j : Nat}
    (h : j < l.length) (d : α) : (l.map f).getD j d' = f (l.getD j d) := by
  rw [getD_indep _ (by rw [List.length_map]; exact h) d' (f d), getD_map]

theorem sort_finished_length (bm : Beam) (minimum : Nat)
    (hmin : minimum ≤ bm.size) (hsh : BeamShape bm.size bm) :
    minimum ≤ (bm.sort_finished minimum).1.length ∧
    (bm.sort_finished minimum).2.length = (bm.sort_finished minimum).1.length := by
  constructor
  · unfold Beam.sort_finished
    simp only [List.length_map, sortByScore_length, List.length_append]
    by_cases h : bm.finished.length < minimum
    · rw [if_pos h]
      simp only [List.length_take, sortByScore_length, List.length_map]
      rw [enumFilterLen (fun t => !(t == bm.eosId))]
      unfold BeamShape unfinCount at hsh
      omega
    · rw [if_neg h]
      simp only [List.length_nil]
      omega
  · unfold Beam.sort_finished
    simp

theorem sort_finished_sorted (bm : Beam) (minimum : Nat) :
    List.Pairwise (fun a b => LProb.le b a) (bm.sort_finished minimum).1 := by
  unfold Beam.sort_finished
  exact List.pairwise_map.mpr (sortByScore_sorted FinEntry.score _)

theorem generateBatchRun_beams_shape {σ ν τ δ ε π ω : Type}
    (G : Generator σ ν τ δ ε π ω) (B : Batch ε π ω) (gtPrefix : Nat)
    (hk : 1 ≤ G.beam_size)
    (hgen : ∀ d, G.beam_size ≤ (G.model.generator d).length)
    (hdecl : ∀ rows mb stt mll, (G.model.decoder rows mb stt mll).1.length = stt.length)
    (hdecs : ∀ rows mb stt mll, (G.model.decoder rows mb stt mll).2.1.length = stt.length)
    (hinit : ∀ einp embank estates,
      (G.model.init_decoder_state einp embank estates).length = B.size)
    (hbos : ∀ b, b < B.size → get_bos G B gtPrefix b ≠ G.vocab G.markerEOS) :
    (generateBatchRun G B gtPrefix).beamsF.length = B.size ∧
    ∀ b ∈ (generateBatchRun G B gtPrefix).beamsF,
      b.size = G.beam_size ∧ BeamShape G.beam_size b := by
  have hinitbs : ∀ b ∈ initBeams G B gtPrefix,
      b.size = G.beam_size ∧ BeamShape G.beam_size b := by
    intro b hb
    unfold initBeams at hb
    rcases List.mem_map.mp hb with ⟨i, hi, rfl⟩
    have hilt : i < B.size := List.mem_range.mp hi
    exact ⟨rfl, init_shape _ _ _ _ _ _ _ (hbos i hilt)⟩
  unfold generateBatchRun
  dsimp only
  constructor
  · rw [decodeLoop_beams_length, initBeams_length]
  · apply decodeLoop_shape G _ _ hgen hdecl hdecs hk
    · rw [initBeams_length, flatRepeat_length]
      split
      · rw [hdecs, hinit]
        calc B.size = 1 * B.size := by ring
        _ ≤ G.beam_size * B.size := Nat.mul_le_mul_right _ hk
      · rw [hinit]
        calc B.size = 1 * B.size := by ring
        _ ≤ G.beam_size * B.size := Nat.mul_le_mul_right _ hk
    · exact hinitbs

/-- C3 (amended): for a well-formed configuration (`n_best ≤ beam_size ≥ 1`,
vocabulary at least `beam_size` wide, a shape-preserving decoder, and no
batch item seeded with EOS itself), each batch item's result contains
exactly `n_best` token sequences and exactly `n_best` attention alignments,
and the scores list is sorted by normalized score descending and contains
at least `n_best` entries — but, contrary to the claim, not always exactly
`n_best`: `_from_beam` appends the full `sort_finished` scores list. -/
theorem c3_n_best_results_amended {σ ν τ δ ε π ω : Type}
    (G : Generator σ ν τ δ ε π ω) (B : Batch ε π ω) (gtPrefix j : Nat)
    (hj : j < B.size) (hk : 1 ≤ G.beam_size) (hnb : G.n_best ≤ G.beam_size)
    (hgen : ∀ d, G.beam_size ≤ (G.model.generator d).length)
    (hdecl : ∀ rows mb stt mll, (G.model.decoder rows mb stt mll).1.length = stt.length)
    (hdecs : ∀ rows mb stt mll, (G.model.decoder rows mb stt mll).2.1.length = stt.length)
    (hinit : ∀ einp embank estates,
      (G.model.init_decoder_state einp embank estates).length = B.size)
    (hbos : ∀ b, b < B.size → get_bos G B gtPrefix b ≠ G.vocab G.markerEOS) :
    ((generate_batch G B gtPrefix).predictions.getD j []).length = G.n_best ∧
    ((generate_batch G B gtPrefix).attention.getD j []).length = G.n_best ∧
    G.n_best ≤ ((generate_batch G B gtPrefix).scores.getD j []).length ∧
    List.Pairwise (fun a b => LProb.le b a)
      ((generate_batch G B gtPrefix).scores.getD j []) := by
  obtain ⟨hlenF, hshapes⟩ := generateBatchRun_beams_shape G B gtPrefix hk hgen
    hdecl hdecs hinit hbos
  have hjF : j < (generateBatchRun G B gtPrefix).beamsF.length := by omega
  set bj := (generateBatchRun G B gtPrefix).beamsF.getD j default with hbj
  have hbmem := getD_mem_of_lt _ (default : Beam) hjF
  obtain ⟨hbsize, hbshape⟩ := hshapes bj hbmem
  have hsf := sort_finished_length bj G.n_best (by rw [hbsize]; exact hnb)
    (by rw [hbsize]; exact hbshape)
  have hpred : (generate_batch G B gtPrefix).predictions.getD j [] =
      ((bj.sort_finished G.n_best).2.take G.n_best).map
        (fun tk => (bj.get_hyp tk.1 tk.2).1) := by
    show ((generateBatchRun G B gtPrefix).beamsF.map (fun b =>
      ((b.sort_finished G.n_best).2.take G.n_best).map
        (fun tk => (b.get_hyp tk.1 tk.2).1))).getD j [] = _
    rw [map_getD_of_lt _ _ _ hjF default]
  have hattn : (generate_batch G B gtPrefix).attention.getD j [] =
      ((bj.sort_finished G.n_best).2.take G.n_best).map
        (fun tk => (bj.get_hyp tk.1 tk.2).2) := by
    show ((generateBatchRun G B gtPrefix).beamsF.map (fun b =>
      ((b.sort_finished G.n_best).2.take G.n_best).map
        (fun tk => (b.get_hyp tk.1 tk.2).2))).getD j [] = _
    rw [map_getD_of_lt _ _ _ hjF default]
  have hsc : (generate_batch G B gtPrefix).scores.getD j [] =
      (bj.sort_finished G.n_best).1 := by
    show ((generateBatchRun G B gtPrefix).beamsF.map (fun b =>
      (b.sort_finished G.n_best).1)).getD j [] = _
    rw [map_getD_of_lt _ _ _ hjF default]
  refine ⟨?_, ?_, ?_, ?_⟩
  · rw [hpred, List.length_map, List.length_take]
    omega
  · rw [hattn, List.length_map, List.length_take]
    omega
  · rw [hsc]
    exact hsf.1
  · rw [hsc]
    exact sort_finished_sorted bj G.n_best

theorem cellwiseDecoder_lengths {σ ν δ : Type} (n : Nat)
    (cell : Nat → Token → σ → δ × σ × List ℚ) (rows : List (List Token))
    (mb : MemBank ν) (st : List σ) (ml : List Nat) :
    (cellwiseDecoder n cell rows mb st ml).1.length = st.length ∧
    (cellwiseDecoder n cell rows mb st ml).2.1.length = st.length := by
  unfold cellwiseDecoder
  constructor
  · simp [enumerate_length]
  · simp [enumerate_length]

/-- C3 witness: applied at scenario B (`beam_size 2`, `n_best 1`). -/
theorem c3_n_best_results_witness :
    ((generate_batch cG3 cB3 1).predictions.getD 0 []).length = cG3.n_best ∧
    ((generate_batch cG3 cB3 1).attention.getD 0 []).length = cG3.n_best ∧
    cG3.n_best ≤ ((generate_batch cG3 cB3 1).scores.getD 0 []).length ∧
    List.Pairwise (fun a b => LProb.le b a)
      ((generate_batch cG3 cB3 1).scores.getD 0 []) :=
  c3_n_best_results_amended cG3 cB3 1 0 (by decide) (by decide) (by decide)
    (fun d => by
      show (2 : Nat) ≤ (cGen3 d).length
      have h4 : (cGen3 d).length = 4 := rfl
      omega)
    (fun rows mb stt mll => (cellwiseDecoder_lengths 1 c4cell rows mb stt mll).1)
    (fun rows mb stt mll => (cellwiseDecoder_lengths 1 c4cell rows mb stt mll).2)
    (fun _ _ _ => rfl)
    (fun b hb => by
      have hs : cB3.size = 1 := rfl
      have hb0 : b = 0 := by omega
      subst hb0
      decide)

theorem flatRepeat_getD {α : Type} (d : α) :
    ∀ (k : Nat) (l : List α) (s i : Nat), s < k → i < l.length →
      (flatRepeat k l).getD (s * l.length + i) d = l.getD i d
  | 0, l, s, i, hs, hi => absurd hs (by omega)
  | k + 1, l, 0, i, hs, hi => by
      simp only [flatRepeat, List.replicate_succ, List.flatten_cons, Nat.zero_mul,
        Nat.zero_add]
      rw [List.getD_append _ _ _ _ hi]
  | k + 1, l, s + 1, i, hs, hi => by
      simp only [flatRepeat, List.replicate_succ, List.flatten_cons]
      have hidx : (s + 1) * l.length + i = l.length + (s * l.length + i) := by ring
      rw [hidx, List.getD_append_right _ _ _ _ (by omega)]
      have h2 : l.length + (s * l.length + i) - l.length = s * l.length + i := by omega
      rw [h2]
      have := flatRepeat_getD d k l s i (by omega) hi
      simpa [flatRepeat] using this

theorem range'_flatMap_getD {α : Type} (F : Nat → List α) (n : Nat) (d : α)
    (hF : ∀ s, (F s).length = n) :
    ∀ (cnt base s i : Nat), s < cnt → i < n →
      (((List.range' base cnt).flatMap F).getD (s * n + i) d) = (F (base + s)).getD i d
  | 0, base, s, i, hs, hi => absurd hs (by omega)
  | cnt + 1, base, 0, i, hs, hi => by
      rw [List.range'_succ]
      simp only [List.flatMap_cons, Nat.zero_mul, Nat.zero_add]
      rw [List.getD_append _ _ _ _ (by rw [hF]; exact hi)]
      rw [Nat.add_zero]
  | cnt + 1, base, s + 1, i, hs, hi => by
      rw [List.range'_succ]
      simp only [List.flatMap_cons]
      have hidx : (s + 1) * n + i = n + (s * n + i) := by ring
      rw [hidx, List.getD_append_right _ _ _ _ (by rw [hF]; omega)]
      have h2 : n + (s * n + i) - (F base).length = s * n + i := by rw [hF]; omega
      rw [h2]
      rw [range'_flatMap_getD F n d hF cnt (base + 1) s i (by omega) hi]
      have h3 : base + 1 + s = base + (s + 1) := by omega
      rw [h3]

theorem stepInp_getD {σ ν τ δ ε π ω : Type} (G : Generator σ ν τ δ ε π ω)
    (beams : List Beam) (s i : Nat) (hs : s < G.beam_size) (hi : i < beams.length) :
    (stepInp G beams).getD (s * beams.length + i) 0 =
      (beams.getD i default).get_current_state.getD s 0 := by
  unfold stepInp
  rw [List.range_eq_range']
  rw [range'_flatMap_getD (fun s => beams.map (fun b => b.get_current_state.getD s 0))
    beams.length 0 (fun s => by rw [List.length_map]) G.beam_size 0 s i hs hi]
  rw [Nat.zero_add]
  exact map_getD_of_lt _ _ _ hi default

theorem enum_map_getD {α β : Type} (F : Nat × α → β) (l : List α) (dβ : β) (dα : α)
    {j : Nat} (h : j < l.length) :
    ((enumerate 0 l).map F).getD j dβ = F (j, l.getD j dα) := by
  rw [getD_indep _ (by rw [List.length_map, enumerate_length]; exact h) dβ (F (0, dα))]
  rw [getD_map]
  rw [enumerate_getD dα l 0 j h, Nat.zero_add]

theorem flatCands_div_bound (rows : List (List LProb)) (V : Nat)
    {p : LProb × Nat} (hp : p ∈ Beam.flatCands rows V) : p.2 / V < rows.length := by
  unfold Beam.flatCands at hp
  rcases List.mem_flatMap.mp hp with ⟨s, hs, hp2⟩
  rcases List.mem_map.mp hp2 with ⟨t, ht, rfl⟩
  have hs' : s < rows.length := List.mem_range.mp hs
  have ht' : t < V := List.mem_range.mp ht
  show (s * V + t) / V < rows.length
  rw [mulAddDivHelper s ht']
  exact hs'

theorem bestCands_subset (bm : Beam) (w : List (List LProb)) :
    ∀ p ∈ bm.bestCands w,
      p ∈ Beam.flatCands (bm.beamRows (bm.maskMin w)) (w.headD []).length := by
  intro p hp
  unfold Beam.bestCands at hp
  exact (sortByScore_perm Prod.fst _).subset (List.take_subset _ _ hp)

theorem advance_origin_bound (bm : Beam) (w : List (List LProb)) (a : List (List ℚ))
    (hk : 1 ≤ bm.size) (s : Nat) :
    (bm.advance w a).get_current_origin.getD s 0 < bm.size := by
  unfold Beam.advance Beam.get_current_origin
  simp only [List.getLastD_concat]
  by_cases hlt : s < ((bm.bestCands w).map
      (fun c => c.2 / (w.headD []).length)).length
  · rw [map_getD_of_lt _ _ _ (by rw [List.length_map] at hlt; exact hlt) default]
    have hmem := getD_mem_of_lt (bm.bestCands w) (default : LProb × Nat)
      (by rw [List.length_map] at hlt; exact hlt)
    have hflat := bestCands_subset bm w _ hmem
    have hdiv := flatCands_div_bound _ _ hflat
    calc ((bm.bestCands w).getD s default).2 / (w.headD []).length
        < (bm.beamRows (bm.maskMin w)).length := hdiv
    _ ≤ bm.size := (beamRows_length bm _ hk).2
  · rw [List.getD_eq_default _ _ (by omega)]
    omega

theorem cellwise_out_getD {σ ν δ : Type} [Inhabited σ] [Inhabited δ] (n : Nat)
    (cell : Nat → Token → σ → δ × σ × List ℚ) (inp : List Token) (mb : MemBank ν)
    (st : List σ) (ml : List Nat) {c : Nat} (hc : c < st.length) :
    (cellwiseDecoder n cell [inp] mb st ml).1.getD c default =
      (cell (c % n) (inp.getD c 0) (st.getD c default)).1 := by
  unfold cellwiseDecoder
  dsimp only
  rw [List.map_map]
  rw [enum_map_getD _ _ _ default hc]
  rfl

theorem cellwise_attn_getD {σ ν δ : Type} [Inhabited σ] (n : Nat)
    (cell : Nat → Token → σ → δ × σ × List ℚ) (inp : List Token) (mb : MemBank ν)
    (st : List σ) (ml : List Nat) {c : Nat} (hc : c < st.length) :
    (cellwiseDecoder n cell [inp] mb st ml).2.2.getD c [] =
      (cell (c % n) (inp.getD c 0) (st.getD c default)).2.2 := by
  unfold cellwiseDecoder
  dsimp only
  rw [List.map_map]
  rw [enum_map_getD _ _ _ default hc]
  rfl

theorem cellwise_state_getD {σ ν δ : Type} [Inhabited σ] (n : Nat)
    (cell : Nat → Token → σ → δ × σ × List ℚ) (inp : List Token) (mb : MemBank ν)
    (st : List σ) (ml : List Nat) {c : Nat} (hc : c < st.length) :
    (cellwiseDecoder n cell [inp] mb st ml).2.1.getD c default =
      (cell (c % n) (inp.getD c 0) (st.getD c default)).2.1 := by
  unfold cellwiseDecoder
  dsimp only
  rw [enum_map_getD _ _ _ default hc]
  rfl

theorem cellwise_state_getD_multi {σ ν δ : Type} [Inhabited σ] (n : Nat)
    (cell : Nat → Token → σ → δ × σ × List ℚ) (rows : List (List Token))
    (mb : MemBank ν) (st : List σ) (ml : List Nat) {c : Nat} (hc : c < st.length) :
    (cellwiseDecoder n cell rows mb st ml).2.1.getD c default =
      (rows.map (fun row => row.getD c 0)).foldl
        (fun s t => (cell (c % n) t s).2.1) (st.getD c default) := by
  unfold cellwiseDecoder
  dsimp only
  rw [enum_map_getD _ _ _ default hc]

theorem stepInp_getD_single {σ ν τ δ ε π ω : Type} (G1 : Generator σ ν τ δ ε π ω)
    (bs1 : List Beam) (b : Beam) (hbs1 : bs1 = [b]) (s : Nat) (hs : s < G1.beam_size) :
    (stepInp G1 bs1).getD s 0 = b.get_current_state.getD s 0 := by
  subst hbs1
  have h := stepInp_getD G1 [b] s 0 hs (by simp)
  simpa using h

theorem stepPair {σ ν ν' τ τ' δ ε ε' π π' ω ω' : Type} [Inhabited σ] [Inhabited δ]
    (G : Generator σ ν τ δ ε π ω) (G1 : Generator σ ν' τ' δ ε' π' ω')
    (cell : Nat → Token → σ → δ × σ × List ℚ) (j : Nat)
    (mem : MemBank ν) (mem1 : MemBank ν') (ml ml1 : List Nat)
    (bs : List Beam) (st : List σ) (bs1 : List Beam) (st1 : List σ)
    (hdec : G.model.decoder = cellwiseDecoder bs.length cell)
    (hdec1 : G1.model.decoder = cellwiseDecoder 1 (fun _ => cell j))
    (hg : G1.model.generator = G.model.generator)
    (hbs : G1.beam_size = G.beam_size)
    (hk : 1 ≤ G.beam_size)
    (hj : j < bs.length)
    (hmlj : ml1.getD 0 0 = ml.getD j 0)
    (hrel : PairRel bs.length G.beam_size j bs st bs1 st1)
    (hsize : (bs.getD j default).size = G.beam_size) :
    PairRel bs.length G.beam_size j (stepOnce G mem ml bs st).1
        (stepOnce G mem ml bs st).2.1
        (stepOnce G1 mem1 ml1 bs1 st1).1 (stepOnce G1 mem1 ml1 bs1 st1).2.1 ∧
    ((stepOnce G mem ml bs st).1.getD j default).size = G.beam_size := by
  obtain ⟨hbl, hstl, hbs1, hst1l, hcol⟩ := hrel
  -- abbreviations
  have hstlen : st.length = G.beam_size * bs.length := hstl
  have hdecBig1len : (G.model.decoder [stepInp G bs] mem st ml).1.length = st.length := by
    rw [hdec]; exact (cellwiseDecoder_lengths _ _ _ _ _ _).1
  have hdecBig2len : (G.model.decoder [stepInp G bs] mem st ml).2.1.length = st.length := by
    rw [hdec]; exact (cellwiseDecoder_lengths _ _ _ _ _ _).2
  have hdecSm1len : (G1.model.decoder [stepInp G1 bs1] mem1 st1 ml1).1.length =
      st1.length := by
    rw [hdec1]; exact (cellwiseDecoder_lengths _ _ _ _ _ _).1
  have hdecSm2len : (G1.model.decoder [stepInp G1 bs1] mem1 st1 ml1).2.1.length =
      st1.length := by
    rw [hdec1]; exact (cellwiseDecoder_lengths _ _ _ _ _ _).2
  have hbs1len : bs1.length = 1 := by rw [hbs1]; rfl
  have hbs1getD : bs1.getD 0 default = bs.getD j default := by rw [hbs1]; rfl
  -- the word-score slice of item j agrees between the two runs
  have hword : outCol G.beam_size bs.length j
      ((G.model.decoder [stepInp G bs] mem st ml).1.map G.model.generator) =
      outCol G1.beam_size 1 0
        ((G1.model.decoder [stepInp G1 bs1] mem1 st1 ml1).1.map G1.model.generator) := by
    unfold outCol
    rw [hbs]
    refine List.map_congr_left ?_
    intro s hs
    have hs' : s < G.beam_size := List.mem_range.mp hs
    have hidxb : s * bs.length + j < st.length := by
      rw [hstlen]
      calc s * bs.length + j < s * bs.length + bs.length := by omega
      _ = (s + 1) * bs.length := by ring
      _ ≤ G.beam_size * bs.length := Nat.mul_le_mul_right _ (by omega)
    have hidxs : s * 1 + 0 < st1.length := by rw [hst1l]; omega
    rw [map_getD_of_lt _ _ _ (by rw [hdecBig1len]; exact hidxb) default]
    rw [map_getD_of_lt _ _ _ (by rw [hdecSm1len]; exact hidxs) default]
    rw [hdec, hdec1, hg]
    rw [cellwise_out_getD _ _ _ _ _ _ hidxb]
    rw [cellwise_out_getD _ _ _ _ _ _ hidxs]
    rw [mod_helper s hj]
    rw [stepInp_getD G bs s j hs' hj]
    have hsidx : s * 1 + 0 = s := by omega
    rw [hsidx]
    rw [stepInp_getD_single G1 bs1 (bs.getD j default) hbs1 s (by rw [hbs]; exact hs')]
    rw [hcol s hs']
  -- the attention slice of item j agrees between the two runs
  have hattn : attnCol G.beam_size bs.length j ml
      (G.model.decoder [stepInp G bs] mem st ml).2.2 =
      attnCol G1.beam_size 1 0 ml1
        (G1.model.decoder [stepInp G1 bs1] mem1 st1 ml1).2.2 := by
    unfold attnCol
    rw [hbs]
    refine List.map_congr_left ?_
    intro s hs
    have hs' : s < G.beam_size := List.mem_range.mp hs
    have hidxb : s * bs.length + j < st.length := by
      rw [hstlen]
      calc s * bs.length + j < s * bs.length + bs.length := by omega
      _ = (s + 1) * bs.length := by ring
      _ ≤ G.beam_size * bs.length := Nat.mul_le_mul_right _ (by omega)
    have hidxs : s * 1 + 0 < st1.length := by rw [hst1l]; omega
    rw [hdec, hdec1]
    rw [cellwise_attn_getD _ _ _ _ _ _ hidxb]
    rw [cellwise_attn_getD _ _ _ _ _ _ hidxs]
    rw [mod_helper s hj]
    rw [stepInp_getD G bs s j hs' hj]
    have hsidx : s * 1 + 0 = s := by omega
    rw [hsidx]
    rw [stepInp_getD_single G1 bs1 (bs.getD j default) hbs1 s (by rw [hbs]; exact hs')]
    rw [hcol s hs', hmlj]
  -- the two advanced beams agree
  have hsmallbeams : (stepOnce G1 mem1 ml1 bs1 st1).1 =
      [(bs.getD j default).advance
        (outCol G1.beam_size 1 0
          ((G1.model.decoder [stepInp G1 bs1] mem1 st1 ml1).1.map G1.model.generator))
        (attnCol G1.beam_size 1 0 ml1
          (G1.model.decoder [stepInp G1 bs1] mem1 st1 ml1).2.2)] := by
    unfold stepOnce
    rw [advanceAll_beams_map]
    rw [hbs1]
    rfl
  have hbigbeamj : (stepOnce G mem ml bs st).1.getD j default =
      (bs.getD j default).advance
        (outCol G.beam_size bs.length j
          ((G.model.decoder [stepInp G bs] mem st ml).1.map G.model.generator))
        (attnCol G.beam_size bs.length j ml
          (G.model.decoder [stepInp G bs] mem st ml).2.2) :=
    stepOnce_beam_getD G mem ml bs st hj
  have hbeamsEq : (stepOnce G1 mem1 ml1 bs1 st1).1 =
      [(stepOnce G mem ml bs st).1.getD j default] := by
    rw [hsmallbeams, hbigbeamj, hword, hattn]
  refine ⟨⟨?_, ?_, hbeamsEq, ?_, ?_⟩, ?_⟩
  · rw [stepOnce_beams_length]
  · rw [stepOnce_state_length, hdecBig2len, hstlen]
  · rw [stepOnce_state_length, hdecSm2len, hst1l]
  · -- pointwise state correspondence after the step
    intro s hs
    have hidxb : s * bs.length + j < st.length := by
      rw [hstlen]
      calc s * bs.length + j < s * bs.length + bs.length := by omega
      _ = (s + 1) * bs.length := by ring
      _ ≤ G.beam_size * bs.length := Nat.mul_le_mul_right _ (by omega)
    have hidxb' : s * bs.length + j <
        (G.model.decoder [stepInp G bs] mem st ml).2.1.length := by
      rw [hdecBig2len]; exact hidxb
    -- the advanced beam and its origin
    set bAdv := (bs.getD j default).advance
        (outCol G.beam_size bs.length j
          ((G.model.decoder [stepInp G bs] mem st ml).1.map G.model.generator))
        (attnCol G.beam_size bs.length j ml
          (G.model.decoder [stepInp G bs] mem st ml).2.2) with hbadv
    have horig : bAdv.get_current_origin.getD s 0 < G.beam_size := by
      rw [hbadv]
      have h2 := advance_origin_bound (bs.getD j default)
        (outCol G.beam_size bs.length j
          ((G.model.decoder [stepInp G bs] mem st ml).1.map G.model.generator))
        (attnCol G.beam_size bs.length j ml
          (G.model.decoder [stepInp G bs] mem st ml).2.2)
        (by rw [hsize]; exact hk) s
      rwa [hsize] at h2
    -- big side
    have hbig : (stepOnce G mem ml bs st).2.1.getD (s * bs.length + j) default =
        (G.model.decoder [stepInp G bs] mem st ml).2.1.getD
          (bAdv.get_current_origin.getD s 0 * bs.length + j) default := by
      show (advanceAll G bs.length ml
          ((G.model.decoder [stepInp G bs] mem st ml).1.map G.model.generator)
          (G.model.decoder [stepInp G bs] mem st ml).2.2 (enumerate 0 bs)
          (G.model.decoder [stepInp G bs] mem st ml).2.1).2.1.getD
          (s * bs.length + j) default = _
      rw [advanceAll_col G bs.length ml _ _ (enumerate 0 bs) _ j (bs.getD j default)
        s default (enumerate_getD_mem default bs j hj) hj
        (by rw [enumerate_map_fst]; exact List.nodup_range' _ _) hidxb']
      rw [beamUpdate_getD_eq _ _ default hidxb' (mod_helper s hj)]
      rw [mulAddDivHelper s hj]
      have htar : bAdv.get_current_origin.getD s 0 * bs.length + j <
          (G.model.decoder [stepInp G bs] mem st ml).2.1.length := by
        rw [hdecBig2len, hstlen]
        calc bAdv.get_current_origin.getD s 0 * bs.length + j
            < bAdv.get_current_origin.getD s 0 * bs.length + bs.length := by omega
        _ = (bAdv.get_current_origin.getD s 0 + 1) * bs.length := by ring
        _ ≤ G.beam_size * bs.length := Nat.mul_le_mul_right _ (by omega)
      exact getD_indep _ htar _ _
    -- small side
    have hsmallst : (stepOnce G1 mem1 ml1 bs1 st1).2.1 =
        beamUpdate 0 1 bAdv.get_current_origin
          (G1.model.decoder [stepInp G1 bs1] mem1 st1 ml1).2.1 := by
      unfold stepOnce
      rw [hbs1]
      show (advanceAll G1 1 ml1 _ _ (enumerate 0 [bs.getD j default]) _).2.1 = _
      show (beamUpdate 0 1 _ _ : List σ) = _
      have : (bs.getD j default).advance
          (outCol G1.beam_size 1 0
            ((G1.model.decoder [stepInp G1 bs1] mem1 st1 ml1).1.map G1.model.generator))
          (attnCol G1.beam_size 1 0 ml1
            (G1.model.decoder [stepInp G1 bs1] mem1 st1 ml1).2.2) = bAdv := by
        rw [hbadv, hword, hattn]
      rw [hbs1] at this
      rw [this]
    have hsmall : (stepOnce G1 mem1 ml1 bs1 st1).2.1.getD s default =
        (G1.model.decoder [stepInp G1 bs1] mem1 st1 ml1).2.1.getD
          (bAdv.get_current_origin.getD s 0) default := by
      rw [hsmallst]
      have hslen : s < (G1.model.decoder [stepInp G1 bs1] mem1 st1 ml1).2.1.length := by
        rw [hdecSm2len, hst1l]; exact hs
      have hmod1 : s % 1 = 0 := Nat.mod_one s
      rw [beamUpdate_getD_eq _ _ default hslen hmod1]
      have hidx1 : bAdv.get_current_origin.getD (s / 1) 0 * 1 + 0 =
          bAdv.get_current_origin.getD s 0 := by
        rw [Nat.div_one]; omega
      rw [hidx1]
      have htar1 : bAdv.get_current_origin.getD s 0 <
          (G1.model.decoder [stepInp G1 bs1] mem1 st1 ml1).2.1.length := by
        rw [hdecSm2len, hst1l]; exact horig
      exact getD_indep _ htar1 _ _
    rw [hbig, hsmall]
    -- both sides are the same cell update of the matched pre-step column
    set o := bAdv.get_current_origin.getD s 0 with ho
    have hoidxb : o * bs.length + j < st.length := by
      rw [hstlen]
      calc o * bs.length + j < o * bs.length + bs.length := by omega
      _ = (o + 1) * bs.length := by ring
      _ ≤ G.beam_size * bs.length := Nat.mul_le_mul_right _ horig
    have hoidxs : o < st1.length := by rw [hst1l]; exact horig
    rw [hdec, hdec1]
    rw [cellwise_state_getD _ _ _ _ _ _ hoidxb]
    rw [cellwise_state_getD _ _ _ _ _ _ hoidxs]
    rw [mod_helper o hj]
    rw [stepInp_getD G bs o j horig hj]
    rw [stepInp_getD_single G1 bs1 (bs.getD j default) hbs1 o (by rw [hbs]; exact horig)]
    rw [hcol o horig]
  · rw [hbigbeamj, advance_size, hsize]

theorem loopPair {σ ν ν' τ τ' δ ε ε' π π' ω ω' : Type} [Inhabited σ] [Inhabited δ]
    (G : Generator σ ν τ δ ε π ω) (G1 : Generator σ ν' τ' δ ε' π' ω')
    (cell : Nat → Token → σ → δ × σ × List ℚ) (j n : Nat)
    (mem : MemBank ν) (mem1 : MemBank ν') (ml ml1 : List Nat)
    (hdec : G.model.decoder = cellwiseDecoder n cell)
    (hdec1 : G1.model.decoder = cellwiseDecoder 1 (fun _ => cell j))
    (hg : G1.model.generator = G.model.generator)
    (hbs : G1.beam_size = G.beam_size) (hk : 1 ≤ G.beam_size)
    (hj : j < n) (hmlj : ml1.getD 0 0 = ml.getD j 0) :
    ∀ (fuel : Nat) (bs : List Beam) (st : List σ) (bs1 : List Beam) (st1 : List σ),
      PairRel n G.beam_size j bs st bs1 st1 →
      (bs.getD j default).size = G.beam_size →
      (decodeLoop G mem ml fuel bs st).2.2.length =
        (decodeLoop G1 mem1 ml1 fuel bs1 st1).2.2.length →
      (decodeLoop G1 mem1 ml1 fuel bs1 st1).1 =
        [(decodeLoop G mem ml fuel bs st).1.getD j default] := by
  intro fuel
  induction fuel with
  | zero =>
      intro bs st bs1 st1 hrel hsize htr
      exact hrel.2.2.1
  | succ f ih =>
      intro bs st bs1 st1 hrel hsize htr
      have hbl : bs.length = n := hrel.1
      have hdec' : G.model.decoder = cellwiseDecoder bs.length cell := by
        rw [hbl]; exact hdec
      have hj' : j < bs.length := by omega
      unfold decodeLoop at htr ⊢
      by_cases hb : bs.all Beam.done
      · rw [if_pos hb] at htr ⊢
        by_cases hb1 : bs1.all Beam.done
        · rw [if_pos hb1] at htr ⊢
          exact hrel.2.2.1
        · rw [if_neg hb1] at htr
          simp only [List.length_cons, List.length_nil] at htr
          omega
      · rw [if_neg hb] at htr ⊢
        by_cases hb1 : bs1.all Beam.done
        · rw [if_pos hb1] at htr
          simp only [List.length_cons, List.length_nil] at htr
          omega
        · rw [if_neg hb1] at htr ⊢
          simp only [List.length_cons] at htr
          dsimp only
          obtain ⟨hrel', hsize'⟩ := stepPair G G1 cell j mem mem1 ml ml1 bs st bs1 st1
            hdec' hdec1 hg hbs hk hj' hmlj
            (by rw [hbl]; exact hrel) hsize
          rw [hbl] at hrel'
          exact ih _ _ _ _ hrel' hsize' (by omega)

theorem generateBatchRun_decompose {σ ν τ δ ε π ω : Type}
    (G : Generator σ ν τ δ ε π ω) (B : Batch ε π ω) (gtPrefix : Nat) :
    ∃ (mb0 mb : MemBank ν),
      (generateBatchRun G B gtPrefix).entryStates =
        flatRepeat G.beam_size
          (if 1 < gtPrefix then
            (G.model.decoder (B.targets.take (gtPrefix - 1)) mb0
              (G.model.init_decoder_state B.encoder_inputs
                (G.model.encoder B.encoder_inputs B.lengths).2
                (G.model.encoder B.encoder_inputs B.lengths).1) B.lengths).2.1
          else
            G.model.init_decoder_state B.encoder_inputs
              (G.model.encoder B.encoder_inputs B.lengths).2
              (G.model.encoder B.encoder_inputs B.lengths).1) ∧
      (generateBatchRun G B gtPrefix).beamsF =
        (decodeLoop G mb (flatRepeat G.beam_size B.lengths) G.max_length
          (initBeams G B gtPrefix) (generateBatchRun G B gtPrefix).entryStates).1 ∧
      (generateBatchRun G B gtPrefix).trace =
        (decodeLoop G mb (flatRepeat G.beam_size B.lengths) G.max_length
          (initBeams G B gtPrefix) (generateBatchRun G B gtPrefix).entryStates).2.2 :=
  ⟨_, _, rfl, rfl, rfl⟩

theorem flatRepeat_len1_getD {α : Type} (k : Nat) (l : List α) (d : α)
    (hl : l.length = 1) {s : Nat} (hs : s < k) :
    (flatRepeat k l).getD s d = l.getD 0 d := by
  have h := flatRepeat_getD d k l s 0 hs (by omega)
  rwa [hl, Nat.mul_one, Nat.add_zero] at h

/-- C4 (amended): batching is a pure optimization up to the loop-exit
coupling: if the model's batched per-step outputs agree slice-wise with its
single-item outputs (both decoders are per-column `cellwiseDecoder`s of one
cell family), the configurations and batch slices agree, and the two runs
execute the same number of decoding steps, then the predictions, scores and
attention `generate_batch` produces for batch item `j` equal those of the
single-item run.  (Without the equal-step proviso the claim fails: an
early-finished beam keeps being advanced while the rest of the batch is
live — see the counterexample.) -/
theorem c4_batching_refinement_amended {σ ν ν' τ τ' δ ε ε' π π' ω ω' : Type}
    [Inhabited σ] [Inhabited δ]
    (G : Generator σ ν τ δ ε π ω) (G1 : Generator σ ν' τ' δ ε' π' ω')
    (B : Batch ε π ω) (B1 : Batch ε' π' ω')
    (gtPrefix j : Nat) (cell : Nat → Token → σ → δ × σ × List ℚ)
    (hj : j < B.size) (hs1 : B1.size = 1)
    (hdec : G.model.decoder = cellwiseDecoder B.size cell)
    (hdec1 : G1.model.decoder = cellwiseDecoder 1 (fun _ => cell j))
    (hg : G1.model.generator = G.model.generator)
    (hbs : G1.beam_size = G.beam_size) (hk : 1 ≤ G.beam_size)
    (hnb : G1.n_best = G.n_best) (hml : G1.max_length = G.max_length)
    (hmin : G1.min_length = G.min_length) (hsc : G1.global_scorer = G.global_scorer)
    (hpad : G1.vocab G1.markerPAD = G.vocab G.markerPAD)
    (heos : G1.vocab G1.markerEOS = G.vocab G.markerEOS)
    (hbos : get_bos G1 B1 gtPrefix 0 = get_bos G B gtPrefix j)
    (hblen : B.lengths.length = B.size)
    (hlen1 : B1.lengths = [B.lengths.getD j 0])
    (htgt : B1.targets = B.targets.map (fun row => [row.getD j 0]))
    (hinitlen : (G.model.init_decoder_state B.encoder_inputs
        (G.model.encoder B.encoder_inputs B.lengths).2
        (G.model.encoder B.encoder_inputs B.lengths).1).length = B.size)
    (hinit1 : G1.model.init_decoder_state B1.encoder_inputs
        (G1.model.encoder B1.encoder_inputs B1.lengths).2
        (G1.model.encoder B1.encoder_inputs B1.lengths).1 =
      [(G.model.init_decoder_state B.encoder_inputs
        (G.model.encoder B.encoder_inputs B.lengths).2
        (G.model.encoder B.encoder_inputs B.lengths).1).getD j default])
    (htrace : (genTrace G B gtPrefix).length = (genTrace G1 B1 gtPrefix).length) :
    (generate_batch G B gtPrefix).predictions.getD j [] =
      (generate_batch G1 B1 gtPrefix).predictions.getD 0 [] ∧
    (generate_batch G B gtPrefix).scores.getD j [] =
      (generate_batch G1 B1 gtPrefix).scores.getD 0 [] ∧
    (generate_batch G B gtPrefix).attention.getD j [] =
      (generate_batch G1 B1 gtPrefix).attention.getD 0 [] := by
  obtain ⟨mb0, mbB, hEntryB, hBf, hBt⟩ := generateBatchRun_decompose G B gtPrefix
  obtain ⟨mb0', mbS, hEntryS, hSf, hSt⟩ := generateBatchRun_decompose G1 B1 gtPrefix
  rw [hml] at hSf hSt
  -- initial beams correspondence
  have hib1 : initBeams G1 B1 gtPrefix = [(initBeams G B gtPrefix).getD j default] := by
    rw [initBeams_getD G B gtPrefix hj]
    unfold initBeams
    rw [hs1]
    simp only [List.range_succ, List.range_zero, List.nil_append,
      List.map_cons, List.map_nil]
    rw [hbs, hnb, hpad, hbos, heos, hmin, hsc]
  have hds1lenB : (if 1 < gtPrefix then
      (G.model.decoder (B.targets.take (gtPrefix - 1)) mb0
        (G.model.init_decoder_state B.encoder_inputs
          (G.model.encoder B.encoder_inputs B.lengths).2
          (G.model.encoder B.encoder_inputs B.lengths).1) B.lengths).2.1
      else G.model.init_decoder_state B.encoder_inputs
        (G.model.encoder B.encoder_inputs B.lengths).2
        (G.model.encoder B.encoder_inputs B.lengths).1).length = B.size := by
    split
    · rw [hdec, (cellwiseDecoder_lengths _ _ _ _ _ _).2]
      exact hinitlen
    · exact hinitlen
  have hds1lenS : (if 1 < gtPrefix then
      (G1.model.decoder (B1.targets.take (gtPrefix - 1)) mb0'
        (G1.model.init_decoder_state B1.encoder_inputs
          (G1.model.encoder B1.encoder_inputs B1.lengths).2
          (G1.model.encoder B1.encoder_inputs B1.lengths).1) B1.lengths).2.1
      else G1.model.init_decoder_state B1.encoder_inputs
        (G1.model.encoder B1.encoder_inputs B1.lengths).2
        (G1.model.encoder B1.encoder_inputs B1.lengths).1).length = 1 := by
    split
    · rw [hdec1, (cellwiseDecoder_lengths _ _ _ _ _ _).2, hinit1]
      rfl
    · rw [hinit1]
      rfl
  -- entry-state correspondence
  have hentryRel : PairRel B.size G.beam_size j (initBeams G B gtPrefix)
      (generateBatchRun G B gtPrefix).entryStates (initBeams G1 B1 gtPrefix)
      (generateBatchRun G1 B1 gtPrefix).entryStates := by
    refine ⟨initBeams_length G B gtPrefix, ?_, hib1, ?_, ?_⟩
    · rw [hEntryB, flatRepeat_length, hds1lenB]
    · rw [hEntryS, flatRepeat_length, hds1lenS, hbs, Nat.mul_one]
    · intro s hs
      rw [hEntryB, hEntryS]
      rw [flatRepeat_len1_getD _ _ _ hds1lenS (by rw [hbs]; exact hs)]
      have hbigD := flatRepeat_getD (default : σ) G.beam_size _ s j hs
        (by rw [hds1lenB]; exact hj)
      rw [hds1lenB] at hbigD
      rw [hbigD]
      by_cases hgt : 1 < gtPrefix
      · rw [if_pos hgt, if_pos hgt]
        rw [hdec, hdec1]
        have hbig := cellwise_state_getD_multi B.size cell
          (B.targets.take (gtPrefix - 1)) mb0
          (G.model.init_decoder_state B.encoder_inputs
            (G.model.encoder B.encoder_inputs B.lengths).2
            (G.model.encoder B.encoder_inputs B.lengths).1) B.lengths
          (by rw [hinitlen]; exact hj)
        have h0 : (0 : Nat) < (G1.model.init_decoder_state B1.encoder_inputs
            (G1.model.encoder B1.encoder_inputs B1.lengths).2
            (G1.model.encoder B1.encoder_inputs B1.lengths).1).length := by
          rw [hinit1]
          simp
        have hsml := cellwise_state_getD_multi 1 (fun _ => cell j)
          (B1.targets.take (gtPrefix - 1)) mb0'
          (G1.model.init_decoder_state B1.encoder_inputs
            (G1.model.encoder B1.encoder_inputs B1.lengths).2
            (G1.model.encoder B1.encoder_inputs B1.lengths).1) B1.lengths h0
        rw [hbig, hsml]
        rw [hinit1, htgt]
        rw [← List.map_take, List.map_map]
        simp only [Nat.mod_eq_of_lt hj, Nat.mod_one, List.getD_cons_zero,
          Function.comp]
        rfl
      · rw [if_neg hgt, if_neg hgt, hinit1]
        simp
  have hjsize : ((initBeams G B gtPrefix).getD j default).size = G.beam_size := by
    rw [initBeams_getD G B gtPrefix hj]
    rfl
  -- memory-length slice agreement
  have hml' : (flatRepeat G1.beam_size B1.lengths).getD 0 0 =
      (flatRepeat G.beam_size B.lengths).getD j 0 := by
    rw [flatRepeat_len1_getD _ _ _ (by rw [hlen1]; rfl) (by rw [hbs]; exact hk)]
    have h2 := flatRepeat_getD (0 : Nat) G.beam_size B.lengths 0 j hk
      (by rw [hblen]; exact hj)
    simp only [Nat.zero_mul, Nat.zero_add] at h2
    rw [h2, hlen1]
    rfl
  -- the traces are the loop traces
  have htr : (decodeLoop G mbB (flatRepeat G.beam_size B.lengths) G.max_length
      (initBeams G B gtPrefix) (generateBatchRun G B gtPrefix).entryStates).2.2.length =
      (decodeLoop G1 mbS (flatRepeat G1.beam_size B1.lengths) G.max_length
        (initBeams G1 B1 gtPrefix)
        (generateBatchRun G1 B1 gtPrefix).entryStates).2.2.length := by
    rw [← hBt, ← hSt]
    exact htrace
  have happly := loopPair G G1 cell j B.size mbB mbS
    (flatRepeat G.beam_size B.lengths) (flatRepeat G1.beam_size B1.lengths)
    hdec hdec1 hg hbs hk hj hml' G.max_length
    (initBeams G B gtPrefix) (generateBatchRun G B gtPrefix).entryStates
    (initBeams G1 B1 gtPrefix) (generateBatchRun G1 B1 gtPrefix).entryStates
    hentryRel hjsize htr
  have hfin : (generateBatchRun G1 B1 gtPrefix).beamsF =
      [(generateBatchRun G B gtPrefix).beamsF.getD j default] := by
    rw [hSf, hBf]
    exact happly
  have hjlt : j < (generateBatchRun G B gtPrefix).beamsF.length := by
    rw [hBf, decodeLoop_beams_length, initBeams_length]
    exact hj
  refine ⟨?_, ?_, ?_⟩
  · show ((generateBatchRun G B gtPrefix).beamsF.map (fun b =>
      ((b.sort_finished G.n_best).2.take G.n_best).map
        (fun tk => (b.get_hyp tk.1 tk.2).1))).getD j [] =
      ((generateBatchRun G1 B1 gtPrefix).beamsF.map (fun b =>
        ((b.sort_finished G1.n_best).2.take G1.n_best).map
          (fun tk => (b.get_hyp tk.1 tk.2).1))).getD 0 []
    rw [map_getD_of_lt _ _ _ hjlt default, hfin, hnb]
    simp only [List.map_cons, List.map_nil, List.getD_cons_zero]
  · show ((generateBatchRun G B gtPrefix).beamsF.map (fun b =>
      (b.sort_finished G.n_best).1)).getD j [] =
      ((generateBatchRun G1 B1 gtPrefix).beamsF.map (fun b =>
        (b.sort_finished G1.n_best).1)).getD 0 []
    rw [map_getD_of_lt _ _ _ hjlt default, hfin, hnb]
    simp only [List.map_cons, List.map_nil, List.getD_cons_zero]
  · show ((generateBatchRun G B gtPrefix).beamsF.map (fun b =>
      ((b.sort_finished G.n_best).2.take G.n_best).map
        (fun tk => (b.get_hyp tk.1 tk.2).2))).getD j [] =
      ((generateBatchRun G1 B1 gtPrefix).beamsF.map (fun b =>
        ((b.sort_finished G1.n_best).2.take G1.n_best).map
          (fun tk => (b.get_hyp tk.1 tk.2).2))).getD 0 []
    rw [map_getD_of_lt _ _ _ hjlt default, hfin, hnb]
    simp only [List.map_cons, List.map_nil, List.getD_cons_zero]

theorem c4_batching_refinement_witness :
    (1 < cB4.size ∧
      (genTrace cG4 cB4 1).length = (genTrace cG4s1 cB4s1 1).length) ∧
    ((generate_batch cG4 cB4 1).predictions.getD 1 [] =
       (generate_batch cG4s1 cB4s1 1).predictions.getD 0 [] ∧
     (generate_batch cG4 cB4 1).scores.getD 1 [] =
       (generate_batch cG4s1 cB4s1 1).scores.getD 0 [] ∧
     (generate_batch cG4 cB4 1).attention.getD 1 [] =
       (generate_batch cG4s1 cB4s1 1).attention.getD 0 []) :=
  ⟨⟨by decide, by decide⟩,
    c4_batching_refinement_amended cG4 cG4s1 cB4 cB4s1 1 1 c4cell
      (by decide) rfl rfl rfl rfl rfl (by decide) rfl rfl rfl rfl rfl rfl rfl
      (by decide) rfl rfl rfl rfl (by decide)⟩
